import Mathlib

/-!
Shallow embedding of the slide change-detection and deduplication engine of the
video2summary repository (src/improved_slide_capture.py and
src/slide_capture_advanced.py), together with theorems settling the frozen
claims about it.

Conventions used throughout:

* Python floats are modelled as rationals (ℚ); a decimal literal such as 0.9
  denotes the corresponding exact rational.
* A hexadecimal hash string is modelled by its bit expansion, most significant
  bit first (a `List Bool`); `len(hex_string) * 4` is the length of that list.
  Both similarity implementations operate on exactly this bit expansion:
  `AdvancedSlideCapture.hamming_distance` rebuilds it with
  `bin(int(h, 16))[2:].zfill(len(h) * 4)`, and
  `ImprovedSlideCapture.calculate_phash_similarity` works on `int(h, 16)`.
* Collaborator primitives (frame decoding, OpenCV resize/DCT/SSIM/Canny/
  morphology/Laplacian, the wall clock, and filesystem effects) are opaque
  parameters collected in an `Env` record.  Filesystem effects are modelled in
  `Except String`: an `Except.error` is a raised exception, and the `Bool`
  carried by a successful `cv2.imwrite` is its return value, which the source
  code discards.
-/

namespace Video2Summary

/-- Python int() truncation applied to a rational; used for `int(self.fps * 5)`.
Every use site has a nonnegative operand, where truncation and the floor
division used here agree. -/
def pyInt (q : ℚ) : ℤ := q.num / (q.den : ℤ)

/-- Number of one bits, as in Python `bin(n).count("1")`. -/
def popcount (n : ℕ) : ℕ :=
  if h : n = 0 then 0 else n % 2 + popcount (n / 2)
termination_by n
decreasing_by exact Nat.div_lt_self (Nat.pos_of_ne_zero h) (by omega)

/-- Unfolding equation for `popcount`. -/
theorem popcount_eq (n : ℕ) :
    popcount n = if n = 0 then 0 else n % 2 + popcount (n / 2) := by
  rw [popcount]
  simp

/-- Numeric value `int(hex_string, 16)` of a bitstring given most significant
bit first. -/
def bitsToNat (l : List Bool) : ℕ :=
  l.foldl (fun n b => 2 * n + (if b then 1 else 0)) 0

/-- `AdvancedSlideCapture.hamming_distance`: zips the zero-filled binary
expansions of the two hex strings and counts differing positions.  `zip`
truncates at the shorter expansion, so no length check happens. -/
def hamming_distance (hash1 hash2 : List Bool) : ℕ :=
  ((hash1.zip hash2).filter (fun c => c.1 != c.2)).length

/-- `AdvancedSlideCapture.hash_similarity`: `1 - distance / max_distance` with
`max_distance = len(hash1) * 4`, the bit length of the FIRST argument. -/
def hash_similarity (hash1 hash2 : List Bool) : ℚ :=
  1 - (hamming_distance hash1 hash2 : ℚ) / (hash1.length : ℚ)

/-- `ImprovedSlideCapture.calculate_phash_similarity`: xor of the numeric hash
values, popcount of the xor, divided by `max_distance = len(hash1) * 4`. -/
def calculate_phash_similarity (hash1 hash2 : List Bool) : ℚ :=
  1 - (popcount (Nat.xor (bitsToNat hash1) (bitsToNat hash2)) : ℚ) /
    (hash1.length : ℚ)

/-- Pointwise xor popcount of two bitstrings, the quantity named
`popcount(h1 XOR h2)` by the specification. -/
def bitXorPopcount (hash1 hash2 : List Bool) : ℕ :=
  ((hash1.zip hash2).map (fun c => xor c.1 c.2)).count true

/-- A decoded two-dimensional float array, row index first. -/
def Mat : Type := ℕ → ℕ → ℚ

/-- Sum of `f i` over `0 ≤ i < n`. -/
def rsum (n : ℕ) (f : ℕ → ℚ) : ℚ := ((List.range n).map f).sum

/-- `AdvancedSlideCapture.compute_phash`: resize the grayscale frame to a
`(hash_size*4) × (hash_size*4)` square, apply the 2-D DCT, keep the top-left
`hash_size × hash_size` low-frequency block, threshold every coefficient of the
block against the block mean computed without the DC term `dct[0][0]`, and
flatten row-major.  `resize` and `dct` are the OpenCV collaborators `cv2.resize`
and `cv2.dct` (the grayscale conversion is folded into `resize`). -/
def compute_phash {F : Type} (resize : F → ℕ × ℕ → Mat) (dct : Mat → Mat)
    (image : F) (hash_size : ℕ := 8) : List Bool :=
  let resized := resize image (hash_size * 4, hash_size * 4)
  let d := dct resized
  let avg := (rsum hash_size (fun i => rsum hash_size (fun j => d i j)) - d 0 0) /
    ((hash_size * hash_size : ℚ) - 1)
  (List.range hash_size).flatMap (fun i =>
    (List.range hash_size).map (fun j => decide (d i j > avg)))

/-- `ImprovedSlideCapture.calculate_phash`: resize the grayscale frame to a
`hash_size × hash_size` square (not `hash_size*4`), apply the DCT to that
square, and threshold against `np.mean(dct_low[1:, 1:])` — the mean of the
block with its whole first row and first column removed. -/
def calculate_phash {F : Type} (resize : F → ℕ × ℕ → Mat) (dct : Mat → Mat)
    (img : F) (hash_size : ℕ := 8) : List Bool :=
  let resized := resize img (hash_size, hash_size)
  let d := dct resized
  let avg := rsum (hash_size - 1)
      (fun i => rsum (hash_size - 1) (fun j => d (i + 1) (j + 1))) /
    (((hash_size - 1) * (hash_size - 1) : ℕ) : ℚ)
  (List.range hash_size).flatMap (fun i =>
    (List.range hash_size).map (fun j => decide (d i j > avg)))

/-- `AdvancedSlideCapture.compute_dhash`: resize to `(hash_size+1)` columns by
`hash_size` rows and take the sign of the horizontal gradient, row-major. -/
def compute_dhash {F : Type} (resize : F → ℕ × ℕ → Mat) (image : F)
    (hash_size : ℕ := 8) : List Bool :=
  let resized := resize image (hash_size + 1, hash_size)
  (List.range hash_size).flatMap (fun i =>
    (List.range hash_size).map (fun j => decide (resized i (j + 1) > resized i j)))

/-- Specification recipe for the perceptual hash, following the claim wording:
downscale to a `size*4`-pixel square, 2-D DCT, keep the low-frequency
`size × size` block, threshold each coefficient against the mean of that block
computed excluding the DC term, flatten the boolean matrix to a bitstring. -/
def phashSpec {F : Type} (resize : F → ℕ × ℕ → Mat) (dct : Mat → Mat)
    (image : F) (size : ℕ) : List Bool :=
  let d := dct (resize image (size * 4, size * 4))
  let blockMeanNoDC :=
    (rsum size (fun i => rsum size (fun j => d i j)) - d 0 0) /
      ((size * size : ℚ) - 1)
  (List.range size).flatMap (fun i =>
    (List.range size).map (fun j => decide (d i j > blockMeanNoDC)))

/-- Amended recipe for the improved variant: downscale to a `size`-pixel
square, DCT, threshold against the mean of the block excluding its first row
and first column, flatten. -/
def phashImprovedSpec {F : Type} (resize : F → ℕ × ℕ → Mat) (dct : Mat → Mat)
    (image : F) (size : ℕ) : List Bool :=
  let d := dct (resize image (size, size))
  let meanNoFirstRowCol :=
    rsum (size - 1) (fun i => rsum (size - 1) (fun j => d (i + 1) (j + 1))) /
      (((size - 1) * (size - 1) : ℕ) : ℚ)
  (List.range size).flatMap (fun i =>
    (List.range size).map (fun j => decide (d i j > meanNoFirstRowCol)))

/-- The `SlideInfo` dataclass of src/slide_capture_advanced.py. -/
structure SlideInfo where
  frame_idx : ℕ
  timestamp : ℚ
  phash : List Bool
  dhash : List Bool
  group_id : ℤ
  subgroup_idx : ℕ
  filename : String
  is_transition : Bool
  similarity_to_prev : ℚ
deriving DecidableEq

/-- Collaborator primitives used by both capture classes.  Pure image metrics
are total functions; filesystem effects live in `Except String` where
`Except.error msg` is a raised exception carrying `str(e)`. -/
structure Env (F : Type) where
  read : ℕ → Option F
  resize320 : F → F
  resizeMat : F → ℕ × ℕ → Mat
  dct : Mat → Mat
  histSim : F → F → ℚ
  ssim : F → F → ℚ
  edgeDiff : F → F → ℚ
  textRegions : F → ℕ
  sharp : F → ℚ
  now : ℚ
  makedirs : Except String Unit
  imwrite : String → Except String Bool
  writeMetaFile : Except String Unit
  fnameImp : ℕ → ℕ → ℤ → List Bool → String
  fnameAdv : SlideInfo → String

/-- Python `range(a, b, s)` over naturals, for step `s ≥ 1` (empty when
`b ≤ a`; the model presumes a positive step, where CPython raises). -/
def rangeStep (a b s : ℕ) : List ℕ :=
  (List.range ((b - a + s - 1) / s)).map (fun k => a + k * s)

/-- Python `range(a, b, s)` over integers, for step `s ≥ 1`. -/
def rangeStepInt (a b : ℤ) (s : ℕ) : List ℤ :=
  (List.range (((b - a + s - 1) / (s : ℤ)).toNat)).map (fun k => a + k * s)

/-- Python `list.sort(key=lambda x: x[0])` on (frame index, payload) pairs. -/
def sortByKey {F : Type} (l : List (ℕ × F)) : List (ℕ × F) :=
  l.mergeSort (fun a b => decide (a.1 ≤ b.1))

/-- Python `sorted(set(xs))`. -/
def sortedSet (l : List ℕ) : List ℕ :=
  (l.mergeSort (fun a b => decide (a ≤ b))).dedup

/-- Python dict insertion: overwrite in place when the key is present,
otherwise append (`self.phash_to_group[phash] = group_id`). -/
def dictInsert (m : List (List Bool × ℤ)) (k : List Bool) (v : ℤ) :
    List (List Bool × ℤ) :=
  if m.any (fun e => e.1 == k) then
    m.map (fun e => if e.1 == k then (k, v) else e)
  else m ++ [(k, v)]

/-- Mutable fields of `AdvancedSlideCapture` touched by grouping:
`phash_to_group` (a dict in insertion order, mapping each group founder hash to
its group id), `slides_info` and `current_group_id`. -/
structure AdvState where
  phash_to_group : List (List Bool × ℤ)
  slides_info : List SlideInfo
  current_group_id : ℤ
deriving DecidableEq

/-- The best-match scan of `find_or_create_group`, generalised over its start
value `(best_group, best_similarity) = (-1, 0.0)`: for each founder entry,
update when the pHash similarity strictly beats the best seen so far and
reaches `group_threshold`. -/
def bestMatchFrom (group_threshold : ℚ) (phash : List Bool) (b : ℤ × ℚ)
    (founders : List (List Bool × ℤ)) : ℤ × ℚ :=
  founders.foldl
    (fun (b : ℤ × ℚ) e =>
      let p_similarity := hash_similarity phash e.1
      if p_similarity > b.2 ∧ p_similarity ≥ group_threshold
        then (e.2, p_similarity) else b)
    b

/-- `AdvancedSlideCapture.find_or_create_group`: scan every existing founder
hash, remembering the best pHash similarity seen so far provided it reaches
`group_threshold`; join the best group with `subgroup_idx` one past the count
of its current members, or found a new group otherwise.  The dhash argument is
received and ignored, as in the source. -/
def find_or_create_group (group_threshold : ℚ) (s : AdvState)
    (phash _dhash : List Bool) : (ℤ × ℕ) × AdvState :=
  let best := bestMatchFrom group_threshold phash (-1, 0) s.phash_to_group
  if best.1 ≠ -1 then
    ((best.1,
      (s.slides_info.filter (fun si => si.group_id == best.1)).length + 1), s)
  else
    let gid := s.current_group_id + 1
    ((gid, 1),
      { s with
        phash_to_group := dictInsert s.phash_to_group phash gid
        current_group_id := gid })

/-- State threaded through `AdvancedSlideCapture.group_and_deduplicate`: the
object state plus the local `final_slides` and `processed_hashes`
accumulators.  `processed_hashes` is a Python set; only membership-style
queries are made on it, so a list models it faithfully. -/
structure GDState (F : Type) where
  st : AdvState
  final_slides : List (ℕ × F × SlideInfo)
  processed_hashes : List (List Bool)
deriving DecidableEq

/-- One iteration of the `group_and_deduplicate` loop over a detected
`(frame_idx, frame, phash, dhash)` record: skip silently when some already
processed hash is more than 0.98-similar, otherwise group the record and
append it to `slides_info`, `final_slides` and `processed_hashes`. -/
def group_and_deduplicate_step {F : Type} (group_threshold fps : ℚ)
    (s : GDState F) (r : ℕ × F × List Bool × List Bool) : GDState F :=
  let frame_idx := r.1
  let phash := r.2.2.1
  let dhash := r.2.2.2
  if s.processed_hashes.any (fun ph => decide (hash_similarity phash ph > 0.98))
  then s
  else
    let rec_ := find_or_create_group group_threshold s.st phash dhash
    let slide_info : SlideInfo :=
      { frame_idx := frame_idx
        timestamp := (frame_idx : ℚ) / fps
        phash := phash
        dhash := dhash
        group_id := rec_.1.1
        subgroup_idx := rec_.1.2
        filename := ""
        is_transition := false
        similarity_to_prev := 0 }
    { st := { rec_.2 with slides_info := rec_.2.slides_info ++ [slide_info] }
      final_slides := s.final_slides ++ [(frame_idx, r.2.1, slide_info)]
      processed_hashes := s.processed_hashes ++ [phash] }

/-- `AdvancedSlideCapture.group_and_deduplicate`. -/
def group_and_deduplicate {F : Type} (group_threshold fps : ℚ)
    (slide_frames : List (ℕ × F × List Bool × List Bool)) (s : GDState F) :
    GDState F :=
  slide_frames.foldl (group_and_deduplicate_step group_threshold fps) s

/-- Candidate offsets added around a change point found at sample `i`:
`for offset in range(-step//2, step//2 + 1, 5)`, keeping `i + offset` when it
lies inside `[0, total_frames)`.  Python floor division gives
`-step//2 = -((step+1)//2)`. -/
def scanOffsets (i step total : ℕ) : List ℕ :=
  (rangeStepInt (-(((step + 1) / 2 : ℕ) : ℤ)) (((step / 2 : ℕ) : ℤ) + 1) 5).flatMap
    (fun offset =>
      let candidate_frame := (i : ℤ) + offset
      if 0 ≤ candidate_frame ∧ candidate_frame < (total : ℤ)
      then [candidate_frame.toNat] else [])

/-- One sample of the fast-scan loop: a failed read is skipped without
updating `prev_frame`; otherwise the frame is downscaled and compared by
histogram correlation with the previous sample, emitting the surrounding
offsets when the correlation drops under 0.95. -/
def fast_scan_step {F : Type} (e : Env F) (step total : ℕ)
    (s : Option F × List ℕ) (i : ℕ) : Option F × List ℕ :=
  match e.read i with
  | none => s
  | some frame =>
    let small_frame := e.resize320 frame
    let acc :=
      match s.1 with
      | none => s.2
      | some prev =>
        if e.histSim prev small_frame < 0.95 then s.2 ++ scanOffsets i step total
        else s.2
    (some small_frame, acc)

/-- `fast_scan` of both capture classes (the two files contain the same code):
stride through the video at an adaptive step and return the deduplicated,
sorted candidate list. -/
def fast_scan {F : Type} (e : Env F) (total : ℕ) : List ℕ :=
  let step := if total > 10000 then 60 else if total > 5000 then 45 else 30
  sortedSet ((rangeStep 0 total step).foldl (fast_scan_step e step total) (none, [])).2

/-- State of the precise-detection loops: accepted records, the last accepted
frame, and its index (initially -1). -/
structure PDState (R : Type) (F : Type) where
  acc : List R
  prev : Option F
  prevIdx : ℤ

/-- The `is_new_slide` judgement of `ImprovedSlideCapture.precise_detection`:
the first candidate is always new; later candidates are new when the SSIM
against the last accepted frame drops under the threshold, OR the Canny edge
similarity drops under 0.9, OR the detected text-region count changes by more
than 5. -/
def judgeNewSlideImp {F : Type} (e : Env F) (threshold : ℚ)
    (prev : Option F) (frame : F) : Bool :=
  match prev with
  | none => true
  | some p =>
    let ssim_score := e.ssim p frame
    let edge_similarity := e.edgeDiff p frame
    let text_change :=
      ((e.textRegions frame : ℤ) - (e.textRegions p : ℤ)).natAbs > 5
    decide (ssim_score < threshold) || decide (edge_similarity < 0.9) ||
      decide text_change

/-- The `is_new_slide` judgement of
`AdvancedSlideCapture.precise_detection_with_hashing`: SSIM against the last
accepted frame alone. -/
def judgeNewSlideAdv {F : Type} (e : Env F) (threshold : ℚ)
    (prev : Option F) (frame : F) : Bool :=
  match prev with
  | none => true
  | some p => decide (e.ssim p frame < threshold)

/-- One candidate of `ImprovedSlideCapture.precise_detection`: accept when
judged new and at least `fps` frames (one second) after the last acceptance. -/
def precise_detection_step {F : Type} (e : Env F) (threshold fps : ℚ)
    (s : PDState (ℕ × F) F) (frame_idx : ℕ) : PDState (ℕ × F) F :=
  match e.read frame_idx with
  | none => s
  | some frame =>
    let is_new_slide := judgeNewSlideImp e threshold s.prev frame
    if is_new_slide = true ∧ ((frame_idx : ℚ) - (s.prevIdx : ℚ)) > fps then
      ⟨s.acc ++ [(frame_idx, frame)], some frame, frame_idx⟩
    else s

/-- `ImprovedSlideCapture.precise_detection`. -/
def precise_detection {F : Type} (e : Env F) (threshold fps : ℚ)
    (candidate_frames : List ℕ) : List (ℕ × F) :=
  (candidate_frames.foldl (precise_detection_step e threshold fps)
    ⟨[], none, -1⟩).acc

/-- One candidate of `AdvancedSlideCapture.precise_detection_with_hashing`:
pHash and dHash are computed for every readable candidate, the acceptance test
is SSIM alone, and the dwell bound is half a second (`fps * 0.5`). -/
def precise_detection_with_hashing_step {F : Type} (e : Env F)
    (threshold fps : ℚ) (s : PDState (ℕ × F × List Bool × List Bool) F)
    (frame_idx : ℕ) : PDState (ℕ × F × List Bool × List Bool) F :=
  match e.read frame_idx with
  | none => s
  | some frame =>
    let phash := compute_phash e.resizeMat e.dct frame
    let dhash := compute_dhash e.resizeMat frame
    let is_new_slide := judgeNewSlideAdv e threshold s.prev frame
    if is_new_slide = true ∧ ((frame_idx : ℚ) - (s.prevIdx : ℚ)) > fps * 0.5 then
      ⟨s.acc ++ [(frame_idx, frame, phash, dhash)], some frame, frame_idx⟩
    else s

/-- `AdvancedSlideCapture.precise_detection_with_hashing`. -/
def precise_detection_with_hashing {F : Type} (e : Env F) (threshold fps : ℚ)
    (candidate_frames : List ℕ) : List (ℕ × F × List Bool × List Bool) :=
  (candidate_frames.foldl (precise_detection_with_hashing_step e threshold fps)
    ⟨[], none, -1⟩).acc

/-- `int(self.fps * 5)`, the re-sampling stride of the gap filler (as a
natural number; it is nonnegative for every nonnegative fps). -/
def stepLen (fps : ℚ) : ℕ := (pyInt (fps * 5)).toNat

/-- Python slice `slide_frames[max(0, i-2):min(len(slide_frames), i+3)]`, the
local window an intermediate frame is compared against. -/
def gapWindow {F : Type} (l : List (ℕ × F)) (i : ℕ) : List (ℕ × F) :=
  (l.drop (i - 2)).take (min l.length (i + 3) - (i - 2))

/-- Frames appended for the gap between consecutive accepted slides `i` and
`i+1`: when the gap exceeds 30 seconds, re-sample every `int(fps*5)` frames
strictly inside the gap, keeping a readable frame only when its SSIM against
every frame of the local window stays at or under 0.95. -/
def gapCore {F : Type} (e : Env F) (fps : ℚ) (l : List (ℕ × F)) (i : ℕ)
    (r1 r2 : ℕ × F) : List (ℕ × F) :=
  if ((r2.1 : ℚ) - (r1.1 : ℚ)) > fps * 30 then
    (rangeStep (r1.1 + stepLen fps) r2.1 (stepLen fps)).filterMap
      (fun check_idx =>
        match e.read check_idx with
        | none => none
        | some frame =>
          if (gapWindow l i).all
              (fun ex => decide (¬ e.ssim ex.2 frame > 0.95)) then
            some (check_idx, frame)
          else none)
  else []

def gapAt {F : Type} (e : Env F) (fps : ℚ) (l : List (ℕ × F)) (i : ℕ) :
    List (ℕ × F) :=
  match l[i]?, l[i + 1]? with
  | some r1, some r2 => gapCore e fps l i r1 r2
  | _, _ => []

/-- All frames appended by the gap-filling loop of
`ImprovedSlideCapture.supplementary_detection`. -/
def gapFill {F : Type} (e : Env F) (fps : ℚ) (l : List (ℕ × F)) :
    List (ℕ × F) :=
  (List.range (l.length - 1)).flatMap (gapAt e fps l)

/-- Deduplication keeping first occurrences (Python dict key order). -/
def dedupKeepFirst : List ℤ → List ℤ
  | [] => []
  | a :: l => a :: dedupKeepFirst (l.filter (fun x => decide (x ≠ a)))
termination_by l => l.length
decreasing_by
  exact Nat.lt_succ_of_le (l.length_filter_le _)

/-- One entry of the `frame_data` list of `supplementary_detection`:
frame index, frame, perceptual hash, and group field initialised to -1. -/
structure FrameDatum (F : Type) where
  frame_idx : ℕ
  frame : F
  phash : List Bool
  group : ℤ
deriving DecidableEq

/-- The similarity-grouping pass of `supplementary_detection`: walk the list;
an entry still ungrouped becomes the leader of a fresh group, and every later
still-ungrouped entry whose pHash similarity with the leader exceeds 0.9 is
marked with the same group id. -/
def assignGroups {F : Type} (group_id : ℕ) :
    List (FrameDatum F) → List (FrameDatum F)
  | [] => []
  | d :: rest =>
    if d.group = -1 then
      let rest1 := rest.map (fun x =>
        if x.group = -1 ∧ calculate_phash_similarity d.phash x.phash > 0.9
        then { x with group := (group_id : ℤ) } else x)
      { d with group := (group_id : ℤ) } :: assignGroups (group_id + 1) rest1
    else d :: assignGroups group_id rest
termination_by l => l.length
decreasing_by
  all_goals simp

/-- Representative choice for one group: a single member is kept as is, and a
larger group keeps its sharpest member (`max` with a Laplacian-variance key,
which retains the first member on ties, like Python max). -/
def pickClearest {F : Type} (e : Env F) (group_frames : List (FrameDatum F)) :
    Option (FrameDatum F) :=
  match group_frames with
  | [] => none
  | m :: ms =>
    if ms.isEmpty then some m
    else some (ms.foldl
      (fun best x => if e.sharp x.frame > e.sharp best.frame then x else best) m)

/-- `ImprovedSlideCapture.supplementary_detection`: append gap-filled frames,
re-sort by frame index, group by pHash similarity, keep one representative per
group, record multi-member groups in `similarity_groups`, and sort the
survivors by frame index.  Returns (unique_frames, similarity_groups). -/
def supplementary_detection {F : Type} (e : Env F) (fps : ℚ)
    (slide_frames : List (ℕ × F)) :
    List (ℕ × F) × List (ℤ × List (ℕ × List Bool)) :=
  let final_frames := slide_frames ++ gapFill e fps slide_frames
  let ff := sortByKey final_frames
  let frame_data := ff.map (fun r =>
    FrameDatum.mk r.1 r.2 (calculate_phash e.resizeMat e.dct r.2) (-1))
  let assigned := assignGroups 0 frame_data
  let gids := dedupKeepFirst (assigned.map (fun d => d.group))
  let unique_frames := gids.filterMap (fun g =>
    (pickClearest e (assigned.filter (fun x => x.group == g))).map
      (fun m => (m.frame_idx, m.frame)))
  let sim_groups := gids.filterMap (fun g =>
    match assigned.filter (fun x => x.group == g) with
    | [] => none
    | [_] => none
    | ms => some (g, ms.map (fun x => (x.frame_idx, x.phash))))
  (sortByKey unique_frames, sim_groups)

/-- One slide entry of the metadata list written by
`ImprovedSlideCapture.save_slides`. -/
structure MetaRec where
  index : ℕ
  filename : String
  frame_index : ℕ
  timestamp : ℚ
  phash : List Bool
  group_id : ℤ
  similar_frames : List (ℕ × List Bool)
deriving DecidableEq

/-- Successful outcome of `save_slides`: the saved file paths and the slide
records of the metadata file (which has been written when this is returned). -/
structure SaveOut where
  saved_files : List String
  slides_meta : List MetaRec
deriving DecidableEq

/-- The `frame_to_group` dict of `save_slides`, with later similarity groups
overwriting earlier ones on a shared frame index, defaulting to -1. -/
def frameToGroup (sim_groups : List (ℤ × List (ℕ × List Bool))) (fi : ℕ) : ℤ :=
  let pairs := sim_groups.flatMap (fun g => g.2.map (fun p => (p.1, g.1)))
  match pairs.reverse.find? (fun p => p.1 == fi) with
  | some p => p.2
  | none => -1

/-- Loop of `ImprovedSlideCapture.save_slides` over the sorted slides: write
each image (a raised exception aborts; the boolean returned by `cv2.imwrite`
is discarded), extend `saved_files` and the metadata list unconditionally
after the call, and finally write the metadata file. -/
def save_slides_go {F : Type} (e : Env F) (output_folder : String) (fps : ℚ)
    (sim_groups : List (ℤ × List (ℕ × List Bool))) (k : ℕ)
    (files : List String) (metas : List MetaRec) :
    List (ℕ × F) → Except String SaveOut
  | [] =>
    match e.writeMetaFile with
    | .error msg => .error msg
    | .ok _ => .ok ⟨files, metas⟩
  | (frame_idx, frame) :: rest =>
    let timestamp := (frame_idx : ℚ) / fps
    let phash := calculate_phash e.resizeMat e.dct frame
    let group_id := frameToGroup sim_groups frame_idx
    let filename := e.fnameImp k frame_idx group_id phash
    let filepath := output_folder ++ "/" ++ filename
    match e.imwrite filepath with
    | .error msg => .error msg
    | .ok _written =>
      save_slides_go e output_folder fps sim_groups (k + 1)
        (files ++ [filepath])
        (metas ++ [⟨k + 1, filename, frame_idx, timestamp, phash, group_id,
          (match sim_groups.find? (fun g => g.1 == group_id) with
           | some g => g.2
           | none => [])⟩]) rest

/-- `ImprovedSlideCapture.save_slides`. -/
def save_slides {F : Type} (e : Env F) (output_folder : String) (fps : ℚ)
    (sim_groups : List (ℤ × List (ℕ × List Bool)))
    (slide_frames : List (ℕ × F)) : Except String SaveOut :=
  save_slides_go e output_folder fps sim_groups 0 [] [] (sortByKey slide_frames)

/-- Fields of `ImprovedSlideCapture` fixed at construction (`total_frames` and
`fps` come from the opened `cv2.VideoCapture` handle). -/
structure ImpCap where
  video_path : String
  output_folder : String
  threshold : ℚ
  total_frames : ℕ
  fps : ℚ
deriving DecidableEq

/-- `ImprovedSlideCapture.__init__`: stores its arguments and opens the video;
no validation of any kind is performed on `threshold`. -/
def improvedInit (video_path output_folder : String) (threshold : ℚ)
    (total_frames : ℕ) (fps : ℚ) : ImpCap :=
  ⟨video_path, output_folder, threshold, total_frames, fps⟩

/-- Fields of `AdvancedSlideCapture` fixed at construction. -/
structure AdvCap where
  video_path : String
  output_folder : String
  similarity_threshold : ℚ
  group_threshold : ℚ
  total_frames : ℕ
  fps : ℚ
deriving DecidableEq

/-- `AdvancedSlideCapture.__init__`: stores its arguments and opens the video;
no validation of any kind is performed on either threshold. -/
def advancedInit (video_path output_folder : String)
    (similarity_threshold group_threshold : ℚ) (total_frames : ℕ) (fps : ℚ) :
    AdvCap :=
  ⟨video_path, output_folder, similarity_threshold, group_threshold,
    total_frames, fps⟩

/-- Result dict of `ImprovedSlideCapture.multi_strategy_capture`: either the
success payload or the dict `{"error": str(e)}`. -/
inductive MSResult where
  | ok (output_folder : String) (slide_count : ℕ) (saved_files : List String)
      (total_frames : ℕ) (detection_time : ℚ)
  | err (msg : String)
deriving DecidableEq

/-- `ImprovedSlideCapture.multi_strategy_capture`: run the four stages inside
a try block; any raised exception is caught and turned into
`(False, {"error": str(e)})`. -/
def multi_strategy_capture {F : Type} (e : Env F) (c : ImpCap) :
    Bool × MSResult :=
  match e.makedirs with
  | .error msg => (false, .err msg)
  | .ok _ =>
    let candidate_frames := fast_scan e c.total_frames
    let slide_frames := precise_detection e c.threshold c.fps candidate_frames
    let sup := supplementary_detection e c.fps slide_frames
    match save_slides e c.output_folder c.fps sup.2 sup.1 with
    | .error msg => (false, .err msg)
    | .ok out =>
      (true, .ok c.output_folder out.saved_files.length out.saved_files
        c.total_frames e.now)

/-- Loop of `AdvancedSlideCapture.save_slides_with_grouping`: fill in each
filename, write each image (a raised exception aborts; the boolean returned
by `cv2.imwrite` is discarded) and collect the saved paths together with the
updated `slides_info` records. -/
def save_slides_with_grouping_go {F : Type} (e : Env F)
    (output_folder : String) (files : List String)
    (updated : List SlideInfo) :
    List (ℕ × F × SlideInfo) → Except String (List String × List SlideInfo)
  | [] => .ok (files, updated)
  | (_, _, slide_info) :: rest =>
    let si := { slide_info with filename := e.fnameAdv slide_info }
    let filepath := output_folder ++ "/" ++ si.filename
    match e.imwrite filepath with
    | .error msg => .error msg
    | .ok _written =>
      save_slides_with_grouping_go e output_folder (files ++ [filepath])
        (updated ++ [si]) rest

/-- The statistics dict of `AdvancedSlideCapture.generate_statistics`. -/
structure AdvStats where
  total_slides : ℕ
  total_groups : ℤ
  average_slides_per_group : ℚ
  groups_distribution : List (ℤ × ℕ)
deriving DecidableEq

/-- `AdvancedSlideCapture.generate_statistics`. -/
def generate_statistics (slides_info : List SlideInfo)
    (current_group_id : ℤ) : AdvStats :=
  { total_slides := slides_info.length
    total_groups := current_group_id
    average_slides_per_group :=
      (slides_info.length : ℚ) / ((max 1 current_group_id : ℤ) : ℚ)
    groups_distribution :=
      (dedupKeepFirst (slides_info.map (fun s => s.group_id))).map
        (fun g => (g, (slides_info.filter (fun s => s.group_id == g)).length)) }

/-- Result dict of `AdvancedSlideCapture.advanced_capture`. -/
inductive AdvResult where
  | ok (output_folder : String) (slide_count : ℕ) (group_count : ℤ)
      (saved_files : List String) (metadata_file : String)
      (statistics : AdvStats)
  | err (msg : String)
deriving DecidableEq

/-- `AdvancedSlideCapture.advanced_capture`: the three passes, saving, and
metadata writing inside one try block; any raised exception is caught and
turned into `(False, {"error": str(e)})`.  `generate_statistics` runs on the
`slides_info` records whose filenames the save pass has filled in (the Python
code mutates the shared `SlideInfo` objects in place). -/
def advanced_capture {F : Type} (e : Env F) (c : AdvCap) : Bool × AdvResult :=
  match e.makedirs with
  | .error msg => (false, .err msg)
  | .ok _ =>
    let candidate_frames := fast_scan e c.total_frames
    let slide_frames := precise_detection_with_hashing e
      c.similarity_threshold c.fps candidate_frames
    let g := group_and_deduplicate c.group_threshold c.fps slide_frames
      ⟨⟨[], [], 0⟩, [], []⟩
    match save_slides_with_grouping_go e c.output_folder [] [] g.final_slides with
    | .error msg => (false, .err msg)
    | .ok out =>
      match e.writeMetaFile with
      | .error msg => (false, .err msg)
      | .ok _ =>
        (true, .ok c.output_folder out.1.length g.st.current_group_id out.1
          (c.output_folder ++ "/" ++ "slides_metadata.json")
          (generate_statistics out.2 g.st.current_group_id))

/-! Fingerprint lemmas: the advanced zip-based Hamming distance, and the
improved xor-popcount, agree with the pointwise xor popcount on equal-length
bitstrings. -/

/-- Least-significant-bit-first numeric value of a bitstring. -/
def bitsToNatR : List Bool → ℕ
  | [] => 0
  | b :: t => (if b then 1 else 0) + 2 * bitsToNatR t

theorem bitsToNat_append_bit (l : List Bool) (b : Bool) :
    bitsToNat (l ++ [b]) = 2 * bitsToNat l + (if b then 1 else 0) := by
  unfold bitsToNat
  rw [List.foldl_append]
  rfl

theorem bitsToNat_eq_bitsToNatR_reverse (l : List Bool) :
    bitsToNat l = bitsToNatR l.reverse := by
  induction l using List.reverseRecOn with
  | nil => rfl
  | append_singleton t b ih =>
    rw [bitsToNat_append_bit, List.reverse_append, List.reverse_singleton,
      List.singleton_append]
    show 2 * bitsToNat t + (if b then 1 else 0) =
      (if b then 1 else 0) + 2 * bitsToNatR t.reverse
    rw [ih]
    omega

theorem popcount_bit (b : Bool) (n : ℕ) :
    popcount ((if b then 1 else 0) + 2 * n) = (if b then 1 else 0) + popcount n := by
  cases b with
  | false =>
    simp only [if_neg Bool.false_ne_true, Nat.zero_add]
    by_cases hn : n = 0
    · simp [hn, popcount_eq]
    · rw [popcount_eq]
      have h2 : 2 * n ≠ 0 := by omega
      have hm : 2 * n % 2 = 0 := by omega
      have hd : 2 * n / 2 = n := by omega
      simp [h2, hm, hd]
  | true =>
    rw [popcount_eq]
    have h2 : (if true = true then 1 else 0) + 2 * n ≠ 0 := by simp
    have hm : (1 + 2 * n) % 2 = 1 := by omega
    have hd : (1 + 2 * n) / 2 = n := by omega
    simp only [if_pos rfl] at h2 ⊢
    simp [h2, hm, hd, Nat.add_comm]

theorem xor_bit_decomp (b1 b2 : Bool) (x y : ℕ) :
    Nat.xor ((if b1 then 1 else 0) + 2 * x) ((if b2 then 1 else 0) + 2 * y) =
      (if xor b1 b2 then 1 else 0) + 2 * Nat.xor x y := by
  have hb : ∀ (b : Bool) (n : ℕ), (if b then 1 else 0) + 2 * n = Nat.bit b n := by
    intro b n
    rw [Nat.bit_val]
    cases b <;> simp [Nat.add_comm]
  rw [hb, hb, hb]
  have h := @Nat.bitwise_bit bne (by simp) b1 x b2 y
  have hxorbit : ∀ (u v : Bool), bne u v = xor u v := by decide
  calc Nat.xor (Nat.bit b1 x) (Nat.bit b2 y)
      = Nat.bitwise bne (Nat.bit b1 x) (Nat.bit b2 y) := rfl
    _ = Nat.bit (bne b1 b2) (Nat.bitwise bne x y) := h
    _ = Nat.bit (xor b1 b2) (Nat.xor x y) := by rw [hxorbit]; rfl

theorem popcount_xor_bitsToNatR (l1 : List Bool) :
    ∀ l2 : List Bool, l1.length = l2.length →
      popcount (Nat.xor (bitsToNatR l1) (bitsToNatR l2)) =
        hamming_distance l1 l2 := by
  induction l1 with
  | nil =>
    intro l2 hlen
    have hl2 : l2 = [] := List.length_eq_zero.mp hlen.symm
    subst hl2
    have hx : Nat.xor (bitsToNatR []) (bitsToNatR []) = 0 := by decide
    rw [hx, popcount_eq]
    rfl
  | cons b1 t1 ih =>
    intro l2 hlen
    match l2 with
    | [] => simp at hlen
    | b2 :: t2 =>
      have ht : t1.length = t2.length := by
        simpa using hlen
      show popcount (Nat.xor ((if b1 then 1 else 0) + 2 * bitsToNatR t1)
        ((if b2 then 1 else 0) + 2 * bitsToNatR t2)) = _
      rw [xor_bit_decomp, popcount_bit, ih t2 ht]
      unfold hamming_distance
      rw [List.zip_cons_cons, List.filter_cons]
      cases b1 <;> cases b2 <;> simp [Nat.add_comm]

theorem hamming_distance_comm (l1 l2 : List Bool) :
    hamming_distance l1 l2 = hamming_distance l2 l1 := by
  induction l1 generalizing l2 with
  | nil => cases l2 <;> rfl
  | cons b1 t1 ih =>
    cases l2 with
    | nil => rfl
    | cons b2 t2 =>
      unfold hamming_distance at ih ⊢
      rw [List.zip_cons_cons, List.zip_cons_cons, List.filter_cons,
        List.filter_cons]
      cases b1 <;> cases b2 <;> simp [ih t2]

theorem hamming_distance_reverse (l1 : List Bool) :
    ∀ l2 : List Bool, l1.length = l2.length →
      hamming_distance l1.reverse l2.reverse = hamming_distance l1 l2 := by
  induction l1 with
  | nil =>
    intro l2 hlen
    have : l2 = [] := List.length_eq_zero.mp hlen.symm
    subst this
    rfl
  | cons b1 t1 ih =>
    intro l2 hlen
    match l2 with
    | [] => simp at hlen
    | b2 :: t2 =>
      have ht : t1.length = t2.length := by simpa using hlen
      unfold hamming_distance
      rw [List.reverse_cons, List.reverse_cons,
        List.zip_append (by simp [ht]), List.zip_cons_cons,
        List.filter_append, List.length_append, List.zip_cons_cons,
        List.filter_cons]
      have := ih t2 ht
      unfold hamming_distance at this
      cases hb : (b1 != b2) <;> simp [hb, this, Nat.add_comm]

theorem popcount_xor_eq_hamming (h1 h2 : List Bool)
    (hlen : h1.length = h2.length) :
    popcount (Nat.xor (bitsToNat h1) (bitsToNat h2)) =
      hamming_distance h1 h2 := by
  rw [bitsToNat_eq_bitsToNatR_reverse, bitsToNat_eq_bitsToNatR_reverse,
    popcount_xor_bitsToNatR h1.reverse h2.reverse (by simp [hlen]),
    hamming_distance_reverse h1 h2 hlen]

theorem hamming_distance_self (l : List Bool) : hamming_distance l l = 0 := by
  induction l with
  | nil => rfl
  | cons b t ih =>
    unfold hamming_distance at ih ⊢
    rw [List.zip_cons_cons, List.filter_cons]
    simp [ih]

theorem bitXorPopcount_eq_hamming (h1 h2 : List Bool) :
    bitXorPopcount h1 h2 = hamming_distance h1 h2 := by
  unfold bitXorPopcount hamming_distance
  induction h1.zip h2 with
  | nil => rfl
  | cons c t ih =>
    rw [List.map_cons, List.count_cons, List.filter_cons]
    cases hc : c.1 != c.2
    · have : xor c.1 c.2 = false := by
        cases h1 : c.1 <;> cases h2 : c.2 <;> simp_all
      simp [this, ih]
    · have : xor c.1 c.2 = true := by
        cases h1 : c.1 <;> cases h2 : c.2 <;> simp_all
      simp [this, ih]

/-- C6 (amended): on equal-length nonempty hashes both similarity
implementations equal `1 - popcount(h1 XOR h2) / bit_length`, are symmetric,
and are reflexive with value 1.  On mismatched lengths the source functions
return a value computed against the first argument's bit length instead of
raising an error; see the counterexample theorem. -/
theorem claim_C6_similarity (h1 h2 : List Bool)
    (hlen : h1.length = h2.length) (hpos : 0 < h1.length) :
    (hash_similarity h1 h2 = 1 - (bitXorPopcount h1 h2 : ℚ) / (h1.length : ℚ)
      ∧ calculate_phash_similarity h1 h2 =
        1 - (bitXorPopcount h1 h2 : ℚ) / (h1.length : ℚ))
    ∧ (hash_similarity h1 h2 = hash_similarity h2 h1
      ∧ calculate_phash_similarity h1 h2 = calculate_phash_similarity h2 h1)
    ∧ (hash_similarity h1 h1 = 1 ∧ calculate_phash_similarity h1 h1 = 1) := by
  refine ⟨⟨?_, ?_⟩, ⟨?_, ?_⟩, ?_, ?_⟩
  · rw [hash_similarity, bitXorPopcount_eq_hamming]
  · rw [calculate_phash_similarity, bitXorPopcount_eq_hamming,
      popcount_xor_eq_hamming h1 h2 hlen]
  · rw [hash_similarity, hash_similarity, hamming_distance_comm, hlen]
  · rw [calculate_phash_similarity, calculate_phash_similarity, hlen,
      show Nat.xor (bitsToNat h1) (bitsToNat h2) =
        Nat.xor (bitsToNat h2) (bitsToNat h1) from Nat.xor_comm _ _]
  · rw [hash_similarity, hamming_distance_self]
    simp
  · rw [calculate_phash_similarity,
      show Nat.xor (bitsToNat h1) (bitsToNat h1) = 0 from Nat.xor_self _,
      popcount_eq]
    simp

/-- Witness for the C6 theorem at concrete four-bit hashes. -/
theorem claim_C6_witness :
    hash_similarity [true, false, true, false] [true, true, false, false] =
      hash_similarity [true, true, false, false] [true, false, true, false]
    ∧ calculate_phash_similarity [true, false, true, false]
        [true, false, true, false] = 1 :=
  ⟨((claim_C6_similarity [true, false, true, false] [true, true, false, false]
      (by decide) (by decide)).2.1).1,
   ((claim_C6_similarity [true, false, true, false] [true, false, true, false]
      (by decide) (by decide)).2.2).2⟩

/-- C6 counterexample: with mismatched-length hashes (one hex digit against
two) both source implementations run to completion and return a value — the
advanced one asymmetrically (0 in one argument order, 1/2 in the other), the
improved one even a negative number — instead of reporting a fatal error.  No
length check exists in either function, and every operation they perform (int
conversion, xor, bin/zfill, zip, sum) is total on mismatched lengths. -/
theorem claim_C6_counterexample :
    hash_similarity [true, true, true, true]
      [false, false, false, false, true, true, true, true] = 0
    ∧ hash_similarity [false, false, false, false, true, true, true, true]
      [true, true, true, true] = 1 / 2
    ∧ calculate_phash_similarity [true, true, true, true]
      [true, true, true, true, false, false, false, false] = -1 := by
  refine ⟨?_, ?_, ?_⟩
  · rw [hash_similarity,
      show hamming_distance [true, true, true, true]
        [false, false, false, false, true, true, true, true] = 4 from by decide]
    norm_num
  · rw [hash_similarity,
      show hamming_distance [false, false, false, false, true, true, true, true]
        [true, true, true, true] = 4 from by decide]
    norm_num
  · rw [calculate_phash_similarity,
      show Nat.xor (bitsToNat [true, true, true, true])
        (bitsToNat [true, true, true, true, false, false, false, false]) = 255
        from by decide,
      show popcount 255 = 8 from by
        rw [popcount_eq]
        norm_num
        rw [popcount_eq]
        norm_num
        rw [popcount_eq]
        norm_num
        rw [popcount_eq]
        norm_num
        rw [popcount_eq]
        norm_num
        rw [popcount_eq]
        norm_num
        rw [popcount_eq]
        norm_num
        rw [popcount_eq]
        norm_num
        rw [popcount_eq]
        norm_num]
    norm_num

/-- C8 (amended): for size 8 and every frame, resize collaborator and DCT
collaborator, the advanced `compute_phash` follows the claimed recipe exactly
(downscale to a `size*4` square, 2-D DCT, keep the `size × size` block,
threshold against the block mean excluding the DC term, flatten), while the
improved `calculate_phash` downsizes to a `size`-pixel square and thresholds
against the mean of the block excluding its whole first row and first
column. -/
theorem claim_C8_phash {F : Type} (resize : F → ℕ × ℕ → Mat) (dct : Mat → Mat)
    (image : F) :
    compute_phash resize dct image 8 = phashSpec resize dct image 8
    ∧ calculate_phash resize dct image 8 =
      phashImprovedSpec resize dct image 8 :=
  ⟨rfl, rfl⟩

/-- A DCT output taking value -63 at coefficient (0, 1) and 0 elsewhere. -/
def c8Mat : Mat := fun i j => if i = 0 ∧ j = 1 then -63 else 0

/-- A resize collaborator returning `c8Mat` for every requested size. -/
def c8Resize : Unit → ℕ × ℕ → Mat := fun _ _ => c8Mat

/-- C8 counterexample: the improved `calculate_phash` does not compute the
hash of the claimed recipe.  With the DCT output `c8Mat`, the claimed recipe
thresholds against `(-63 - 0) / 63 = -1` (mean excluding only the DC term), so
coefficient (0,0) = 0 yields bit `true`; `calculate_phash` thresholds against
`np.mean(dct_low[1:, 1:]) = 0`, yielding bit `false` (it also resizes to an
8-pixel square, not 32). -/
theorem claim_C8_counterexample :
    calculate_phash c8Resize id () 8 ≠ phashSpec c8Resize id () 8 := by
  have h1 : (calculate_phash c8Resize id () 8).head? = some false := by
    norm_num [calculate_phash, List.range_succ, rsum, c8Resize, c8Mat]
  have h2 : (phashSpec c8Resize id () 8).head? = some true := by
    norm_num [phashSpec, List.range_succ, rsum, c8Resize, c8Mat]
  intro h
  rw [h, h2] at h1
  simp at h1

/-- C4 (amended): in `ImprovedSlideCapture.precise_detection` a candidate
compared against the last accepted frame is judged a new slide boundary iff at
least one of the three signals crosses its threshold — SSIM below the
similarity threshold, OR edge similarity below 0.9, OR an absolute
text-region-count change above 5; in
`AdvancedSlideCapture.precise_detection_with_hashing` the judgement is SSIM
alone.  Moreover the improved loop appends a readable candidate exactly when
it is judged new and more than `fps` frames have passed since the last
acceptance. -/
theorem claim_C4_boundary {F : Type} (e : Env F) (threshold fps : ℚ) (p f : F)
    (s : PDState (ℕ × F) F) (idx : ℕ) :
    (judgeNewSlideImp e threshold (some p) f = true ↔
      (e.ssim p f < threshold ∨ e.edgeDiff p f < 0.9 ∨
        5 < ((e.textRegions f : ℤ) - (e.textRegions p : ℤ)).natAbs))
    ∧ (judgeNewSlideAdv e threshold (some p) f = true ↔
        e.ssim p f < threshold)
    ∧ (e.read idx = some f →
        ((precise_detection_step e threshold fps s idx).acc ≠ s.acc ↔
          (judgeNewSlideImp e threshold s.prev f = true ∧
            ((idx : ℚ) - (s.prevIdx : ℚ)) > fps))) := by
  refine ⟨?_, ?_, ?_⟩
  · simp only [judgeNewSlideImp, Bool.or_eq_true, decide_eq_true_eq]
    exact or_assoc
  · simp only [judgeNewSlideAdv, decide_eq_true_eq]
  · intro hread
    simp only [precise_detection_step, hread]
    by_cases hc : judgeNewSlideImp e threshold s.prev f = true ∧
        ((idx : ℚ) - (s.prevIdx : ℚ)) > fps
    · rw [if_pos hc]
      simp [hc]
    · rw [if_neg hc]
      simp [hc]

/-- Environment witnessing that the advanced detector ignores the edge and
text signals: SSIM is constantly 1 and edge similarity constantly 0. -/
def c4Env : Env ℕ :=
  { read := fun _ => none
    resize320 := id
    resizeMat := fun _ _ => fun _ _ => 0
    dct := id
    histSim := fun _ _ => 1
    ssim := fun _ _ => 1
    edgeDiff := fun _ _ => 0
    textRegions := fun _ => 0
    sharp := fun _ => 0
    now := 0
    makedirs := .ok ()
    imwrite := fun _ => .ok true
    writeMetaFile := .ok ()
    fnameImp := fun _ _ _ _ => "slide.jpg"
    fnameAdv := fun _ => "slide.jpg" }

/-- C4 counterexample: the claim cites
`AdvancedSlideCapture.precise_detection_with_hashing`, whose judgement is SSIM
alone.  With SSIM 1 (above the 0.85 threshold) and edge similarity 0 (crossing
the 0.9 bound), the claimed three-signal OR rule demands a new slide boundary,
but the advanced judgement answers false. -/
theorem claim_C4_counterexample :
    judgeNewSlideAdv c4Env 0.85 (some 0) 1 = false
    ∧ (c4Env.ssim 0 1 < 0.85 ∨ c4Env.edgeDiff 0 1 < 0.9 ∨
        5 < ((c4Env.textRegions 1 : ℤ) - (c4Env.textRegions 0 : ℤ)).natAbs) := by
  constructor
  · have h : ¬ ((1 : ℚ) < 0.85) := by norm_num
    simp [judgeNewSlideAdv, c4Env, h]
  · refine Or.inr (Or.inl ?_)
    show (0 : ℚ) < 0.9
    norm_num

/-- Environment for the C4 witness: every frame readable, SSIM constantly
zero. -/
def c4wEnv : Env ℕ :=
  { c4Env with read := fun n => some n, ssim := fun _ _ => 0 }

/-- Witness applying the C4 theorem at a concrete candidate. -/
theorem claim_C4_witness :
    c4wEnv.read 5 = some 5
    ∧ ((precise_detection_step c4wEnv (1/2) 1 ⟨[], none, -1⟩ 5).acc ≠
        ([] : List (ℕ × ℕ)) ↔
      (judgeNewSlideImp c4wEnv (1/2) none 5 = true ∧
        ((5 : ℚ) - ((-1 : ℤ) : ℚ)) > 1)) :=
  ⟨rfl, (claim_C4_boundary c4wEnv (1/2) 1 0 5 ⟨[], none, -1⟩ 5).2.2 rfl⟩

/-- C9: in `AdvancedSlideCapture.group_and_deduplicate`, a detected slide
whose pHash similarity with the hash of some earlier kept (processed) slide
exceeds 0.98 is dropped silently: the loop step leaves the entire state
unchanged — no group is assigned, nothing is appended to `slides_info` or
`final_slides` (so the record reaches neither the saved images nor the
metadata file), and the hash is not added to `processed_hashes`. -/
theorem claim_C9_dedup {F : Type} (gt fps : ℚ) (s : GDState F)
    (r : ℕ × F × List Bool × List Bool)
    (h : ∃ ph ∈ s.processed_hashes, hash_similarity r.2.2.1 ph > 0.98) :
    group_and_deduplicate_step gt fps s r = s := by
  have hc : s.processed_hashes.any
      (fun ph => decide (hash_similarity r.2.2.1 ph > 0.98)) = true := by
    rw [List.any_eq_true]
    obtain ⟨ph, hmem, hsim⟩ := h
    exact ⟨ph, hmem, decide_eq_true hsim⟩
  unfold group_and_deduplicate_step
  rw [if_pos hc]

/-- The all-zero 64-bit hash used by concrete grouping examples. -/
def c9Hash : List Bool := List.replicate 64 false

/-- A grouping state that has already processed `c9Hash`. -/
def c9State : GDState ℕ := ⟨⟨[], [], 0⟩, [], [c9Hash]⟩

/-- Witness for the C9 theorem: a record whose hash is identical (similarity
1 > 0.98) to an already processed hash leaves the state untouched. -/
theorem claim_C9_witness :
    (∃ ph ∈ c9State.processed_hashes, hash_similarity c9Hash ph > 0.98)
    ∧ group_and_deduplicate_step 0.9 30 c9State (5, 0, c9Hash, c9Hash) =
      c9State := by
  have hsim : hash_similarity c9Hash c9Hash > 0.98 := by
    rw [hash_similarity,
      show hamming_distance c9Hash c9Hash = 0 from by decide,
      show c9Hash.length = 64 from by decide]
    norm_num
  have hmem : c9Hash ∈ c9State.processed_hashes := by
    show c9Hash ∈ [c9Hash]
    simp
  exact ⟨⟨c9Hash, hmem, hsim⟩,
    claim_C9_dedup 0.9 30 c9State (5, 0, c9Hash, c9Hash) ⟨c9Hash, hmem, hsim⟩⟩

/-! Characterisation of the best-match scan used by the grouping engine. -/

theorem bestMatchFrom_cons (gt : ℚ) (ph : List Bool) (b : ℤ × ℚ)
    (e : List Bool × ℤ) (l : List (List Bool × ℤ)) :
    bestMatchFrom gt ph b (e :: l) =
      bestMatchFrom gt ph
        (if hash_similarity ph e.1 > b.2 ∧ hash_similarity ph e.1 ≥ gt
          then (e.2, hash_similarity ph e.1) else b) l := rfl

theorem bestMatchFrom_snd_mono (gt : ℚ) (ph : List Bool)
    (l : List (List Bool × ℤ)) :
    ∀ b : ℤ × ℚ, b.2 ≤ (bestMatchFrom gt ph b l).2 := by
  induction l with
  | nil => intro b; exact le_refl _
  | cons e l ih =>
    intro b
    rw [bestMatchFrom_cons]
    by_cases hc : hash_similarity ph e.1 > b.2 ∧ hash_similarity ph e.1 ≥ gt
    · rw [if_pos hc]
      exact le_trans (le_of_lt hc.1) (ih _)
    · rw [if_neg hc]
      exact ih b

theorem bestMatchFrom_cases (gt : ℚ) (ph : List Bool)
    (l : List (List Bool × ℤ)) :
    ∀ b : ℤ × ℚ,
      (bestMatchFrom gt ph b l = b ∧
        ∀ e ∈ l, ¬(hash_similarity ph e.1 > b.2 ∧ hash_similarity ph e.1 ≥ gt))
      ∨ (∃ e ∈ l, bestMatchFrom gt ph b l = (e.2, hash_similarity ph e.1) ∧
          hash_similarity ph e.1 ≥ gt) := by
  induction l with
  | nil =>
    intro b
    left
    exact ⟨rfl, by simp⟩
  | cons e l ih =>
    intro b
    rw [bestMatchFrom_cons]
    by_cases hc : hash_similarity ph e.1 > b.2 ∧ hash_similarity ph e.1 ≥ gt
    · rw [if_pos hc]
      rcases ih (e.2, hash_similarity ph e.1) with ⟨heq, _⟩ | ⟨e2, hmem, heq, hge⟩
      · exact Or.inr ⟨e, List.mem_cons_self e l, heq, hc.2⟩
      · exact Or.inr ⟨e2, List.mem_cons_of_mem e hmem, heq, hge⟩
    · rw [if_neg hc]
      rcases ih b with ⟨heq, hall⟩ | ⟨e2, hmem, heq, hge⟩
      · refine Or.inl ⟨heq, ?_⟩
        intro e2 hmem
        rcases List.mem_cons.mp hmem with rfl | hmem2
        · exact hc
        · exact hall e2 hmem2
      · exact Or.inr ⟨e2, List.mem_cons_of_mem e hmem, heq, hge⟩

theorem bestMatchFrom_ge_qualifying (gt : ℚ) (ph : List Bool)
    (l : List (List Bool × ℤ)) :
    ∀ b : ℤ × ℚ, ∀ e ∈ l, hash_similarity ph e.1 ≥ gt →
      hash_similarity ph e.1 ≤ (bestMatchFrom gt ph b l).2 := by
  induction l with
  | nil =>
    intro b e he
    simp at he
  | cons e0 l ih =>
    intro b e he hge
    rw [bestMatchFrom_cons]
    rcases List.mem_cons.mp he with rfl | hmem
    · by_cases hc : hash_similarity ph e.1 > b.2 ∧ hash_similarity ph e.1 ≥ gt
      · rw [if_pos hc]
        exact bestMatchFrom_snd_mono gt ph l (e.2, hash_similarity ph e.1)
      · rw [if_neg hc]
        have hle : hash_similarity ph e.1 ≤ b.2 := by
          by_contra hgt2
          exact hc ⟨lt_of_not_le hgt2, hge⟩
        exact le_trans hle (bestMatchFrom_snd_mono gt ph l b)
    · exact ih _ e hmem hge

theorem find_or_create_group_slides (gt : ℚ) (s : AdvState)
    (p d : List Bool) :
    (find_or_create_group gt s p d).2.slides_info = s.slides_info := by
  unfold find_or_create_group
  by_cases hb : (bestMatchFrom gt p (-1, 0) s.phash_to_group).1 ≠ -1
  · rw [if_pos hb]
  · rw [if_neg hb]

/-- C1: the grouping assignment rule of the single pass.  With a positive
group threshold and well-formed founder entries (group ids start from 1):
when no founder reaches the threshold, the record founds a new group with the
next group id and subgroup index 1, registering its hash as founder; when some
founder reaches the threshold, the record joins a group whose founder
similarity is maximal among all founders, with subgroup index one past the
current member count of that group, and the state is untouched.  Finally every
`group_and_deduplicate` step only appends to `slides_info`: already grouped
records are never reassigned, so groups are never merged or split. -/
theorem claim_C1_grouping {F : Type} (gt fps : ℚ) (s : AdvState)
    (phash dhash : List Bool) (hgt : 0 < gt)
    (hwf : ∀ e ∈ s.phash_to_group, 1 ≤ e.2) :
    ((∀ e ∈ s.phash_to_group, hash_similarity phash e.1 < gt) →
      find_or_create_group gt s phash dhash =
        ((s.current_group_id + 1, 1),
          { s with
            phash_to_group :=
              dictInsert s.phash_to_group phash (s.current_group_id + 1)
            current_group_id := s.current_group_id + 1 }))
    ∧ ((∃ e ∈ s.phash_to_group, gt ≤ hash_similarity phash e.1) →
      ∃ e ∈ s.phash_to_group,
        gt ≤ hash_similarity phash e.1
        ∧ (∀ e2 ∈ s.phash_to_group,
            hash_similarity phash e2.1 ≤ hash_similarity phash e.1)
        ∧ find_or_create_group gt s phash dhash =
          ((e.2, (s.slides_info.filter
              (fun si => si.group_id == e.2)).length + 1), s))
    ∧ (∀ (gd : GDState F) (r : ℕ × F × List Bool × List Bool),
        ∃ tl, (group_and_deduplicate_step gt fps gd r).st.slides_info =
          gd.st.slides_info ++ tl) := by
  refine ⟨?_, ?_, ?_⟩
  · intro hall
    have heq : bestMatchFrom gt phash (-1, 0) s.phash_to_group = (-1, 0) := by
      rcases bestMatchFrom_cases gt phash s.phash_to_group (-1, 0) with
        ⟨heq, _⟩ | ⟨e2, hmem, _, hge⟩
      · exact heq
      · exact absurd hge (not_le.mpr (hall e2 hmem))
    unfold find_or_create_group
    rw [heq]
    norm_num
  · intro hex
    rcases bestMatchFrom_cases gt phash s.phash_to_group (-1, 0) with
      ⟨_, hall⟩ | ⟨e, hmem, heq, hge⟩
    · obtain ⟨e, hmem, hge⟩ := hex
      exact absurd ⟨lt_of_lt_of_le hgt hge, hge⟩ (hall e hmem)
    · refine ⟨e, hmem, hge, ?_, ?_⟩
      · intro e2 hmem2
        by_cases hq : gt ≤ hash_similarity phash e2.1
        · have hle := bestMatchFrom_ge_qualifying gt phash s.phash_to_group
            (-1, 0) e2 hmem2 hq
          rw [heq] at hle
          exact hle
        · exact le_trans (le_of_lt (lt_of_not_le hq)) hge
      · have hne : e.2 ≠ -1 := by
          have := hwf e hmem
          omega
        unfold find_or_create_group
        rw [heq]
        rw [if_pos (by simpa using hne)]
  · intro gd r
    unfold group_and_deduplicate_step
    by_cases hc : gd.processed_hashes.any
        (fun ph => decide (hash_similarity r.2.2.1 ph > 0.98)) = true
    · rw [if_pos hc]
      exact ⟨[], (List.append_nil _).symm⟩
    · rw [if_neg hc]
      simp only [find_or_create_group_slides]
      exact ⟨_, rfl⟩

/-- The all-one 64-bit hash, founder of group 1 in the C1 witness state. -/
def c1Founder : List Bool := List.replicate 64 true

/-- A grouping state with one founded group. -/
def c1State : AdvState := ⟨[(c1Founder, 1)], [], 1⟩

/-- Witness for the C1 theorem: a record dissimilar to the only founder
(similarity 0, under the 0.9 threshold) founds group 2 with subgroup index 1
and registers its hash as the new founder. -/
theorem claim_C1_witness :
    0 < (0.9 : ℚ)
    ∧ find_or_create_group 0.9 c1State c9Hash [] =
      ((2, 1), ⟨[(c1Founder, 1), (c9Hash, 2)], [], 2⟩) := by
  have hgt : 0 < (0.9 : ℚ) := by norm_num
  have hwf : ∀ e ∈ c1State.phash_to_group, 1 ≤ e.2 := by decide
  have hall : ∀ e ∈ c1State.phash_to_group,
      hash_similarity c9Hash e.1 < 0.9 := by
    intro e he
    have he2 : e = (c1Founder, 1) := by
      simpa [c1State] using he
    subst he2
    rw [hash_similarity,
      show hamming_distance c9Hash c1Founder = 64 from by decide,
      show c9Hash.length = 64 from by decide]
    norm_num
  have h := (@claim_C1_grouping ℕ 0.9 30 c1State c9Hash [] hgt hwf).1 hall
  refine ⟨hgt, ?_⟩
  rw [h]
  decide

theorem bestMatchFrom_neg_one_iff (gt : ℚ) (ph : List Bool)
    (l : List (List Bool × ℤ)) (hgt : 0 < gt) (hwf : ∀ e ∈ l, 1 ≤ e.2) :
    (bestMatchFrom gt ph (-1, 0) l).1 = -1 ↔
      ∀ e ∈ l, hash_similarity ph e.1 < gt := by
  constructor
  · intro h e he
    by_contra hq
    push_neg at hq
    rcases bestMatchFrom_cases gt ph l (-1, 0) with ⟨_, hall⟩ | ⟨e2, hmem, heq, _⟩
    · exact hall e he ⟨lt_of_lt_of_le hgt hq, hq⟩
    · rw [heq] at h
      have := hwf e2 hmem
      omega
  · intro hall
    rcases bestMatchFrom_cases gt ph l (-1, 0) with ⟨heq, _⟩ | ⟨e2, hmem, _, hge⟩
    · rw [heq]
    · exact absurd hge (not_le.mpr (hall e2 hmem))

/-- C3 (amended): the total group count is not monotone in `group_threshold`
(see the counterexample theorem), but each single grouping decision is: a
record that founds a new group at some positive threshold, against well-formed
founders, still founds a new group at every larger threshold. -/
theorem claim_C3_threshold (gt gt2 : ℚ) (s : AdvState) (p d : List Bool)
    (hgt : 0 < gt) (hle : gt ≤ gt2)
    (hwf : ∀ e ∈ s.phash_to_group, 1 ≤ e.2)
    (hnew : (find_or_create_group gt s p d).2.current_group_id ≠
      s.current_group_id) :
    (find_or_create_group gt2 s p d).2.current_group_id ≠
      s.current_group_id := by
  have hall : ∀ e ∈ s.phash_to_group, hash_similarity p e.1 < gt := by
    by_contra hq
    have hb : (bestMatchFrom gt p (-1, 0) s.phash_to_group).1 ≠ -1 := by
      intro h
      exact hq ((bestMatchFrom_neg_one_iff gt p s.phash_to_group hgt hwf).mp h)
    apply hnew
    unfold find_or_create_group
    rw [if_pos (by simpa using hb)]
  have hall2 : ∀ e ∈ s.phash_to_group, hash_similarity p e.1 < gt2 :=
    fun e he => lt_of_lt_of_le (hall e he) hle
  have hb2 : (bestMatchFrom gt2 p (-1, 0) s.phash_to_group).1 = -1 :=
    (bestMatchFrom_neg_one_iff gt2 p s.phash_to_group
      (lt_of_lt_of_le hgt hle) hwf).mpr hall2
  unfold find_or_create_group
  rw [if_neg (by simpa using hb2)]
  show s.current_group_id + 1 ≠ s.current_group_id
  omega

/-- Witness for the C3 theorem: a record that founds a new group at threshold
0.9 also founds one at threshold 0.95. -/
theorem claim_C3_witness :
    0 < (0.9 : ℚ)
    ∧ (0.9 : ℚ) ≤ 0.95
    ∧ (find_or_create_group 0.9 c1State c9Hash []).2.current_group_id ≠
      c1State.current_group_id
    ∧ (find_or_create_group 0.95 c1State c9Hash []).2.current_group_id ≠
      c1State.current_group_id := by
  have hgt : 0 < (0.9 : ℚ) := by norm_num
  have hle : (0.9 : ℚ) ≤ 0.95 := by norm_num
  have hwf : ∀ e ∈ c1State.phash_to_group, 1 ≤ e.2 := by decide
  have hsim : hash_similarity c9Hash c1Founder = 0 := by
    rw [hash_similarity,
      show hamming_distance c9Hash c1Founder = 64 from by decide,
      show c9Hash.length = 64 from by decide]
    norm_num
  have hnew : (find_or_create_group 0.9 c1State c9Hash []).2.current_group_id ≠
      c1State.current_group_id := by
    have hall : ∀ e ∈ c1State.phash_to_group,
        hash_similarity c9Hash e.1 < 0.9 := by
      intro e he
      have he2 : e = (c1Founder, 1) := by simpa [c1State] using he
      subst he2
      rw [hsim]
      norm_num
    have hb : (bestMatchFrom 0.9 c9Hash (-1, 0) c1State.phash_to_group).1 = -1 :=
      (bestMatchFrom_neg_one_iff 0.9 c9Hash c1State.phash_to_group hgt hwf).mpr
        hall
    unfold find_or_create_group
    rw [if_neg (by simpa using hb)]
    show c1State.current_group_id + 1 ≠ c1State.current_group_id
    omega
  exact ⟨hgt, hle, hnew,
    claim_C3_threshold 0.9 0.95 c1State c9Hash [] hgt hle hwf hnew⟩

/-- Fingerprint A of the C3 counterexample: all zeros. -/
def hA : List Bool := List.replicate 64 false

/-- Fingerprint B: bits 0..7 flipped (distance 8 from A). -/
def hB : List Bool := List.replicate 8 true ++ List.replicate 56 false

/-- Fingerprint C: bits 0..13 flipped (distance 14 from A, 6 from B). -/
def hC : List Bool := List.replicate 14 true ++ List.replicate 50 false

/-- Fingerprint D: bits 0..7 and 14..19 flipped (distance 14 from A, 6 from
B, 12 from C). -/
def hD : List Bool :=
  List.replicate 8 true ++ List.replicate 6 false ++ List.replicate 6 true ++
    List.replicate 44 false

/-- The ordered slide records A, B, C, D of the C3 counterexample. -/
def c3Records : List (ℕ × ℕ × List Bool × List Bool) :=
  [(0, 0, hA, []), (100, 1, hB, []), (200, 2, hC, []), (300, 3, hD, [])]

/-- The empty grouping state the pass starts from. -/
def gdInit : GDState ℕ := ⟨⟨[], [], 0⟩, [], []⟩

set_option maxHeartbeats 2000000 in
/-- C3 counterexample: raising `group_threshold` CAN decrease the group count.
On the records A, B, C, D the pass at threshold 0.85 = 17/20 produces three
groups (B joins A at similarity 7/8; C and D found their own groups, all their
founder similarities being under 0.85), while at the larger threshold
0.9 = 18/20 it produces only two (B founds a second group, and then both C and
D join it at similarity 29/32). -/
theorem claim_C3_counterexample :
    (17 / 20 : ℚ) < 9 / 10
    ∧ (group_and_deduplicate (17 / 20) 30 c3Records gdInit).st.current_group_id
      = 3
    ∧ (group_and_deduplicate (9 / 10) 30 c3Records gdInit).st.current_group_id
      = 2 := by
  have hba : hash_similarity hB hA = 7 / 8 := by
    rw [hash_similarity, show hamming_distance hB hA = 8 from by decide,
      show hB.length = 64 from by decide]
    norm_num
  have hca : hash_similarity hC hA = 25 / 32 := by
    rw [hash_similarity, show hamming_distance hC hA = 14 from by decide,
      show hC.length = 64 from by decide]
    norm_num
  have hcb : hash_similarity hC hB = 29 / 32 := by
    rw [hash_similarity, show hamming_distance hC hB = 6 from by decide,
      show hC.length = 64 from by decide]
    norm_num
  have hda : hash_similarity hD hA = 25 / 32 := by
    rw [hash_similarity, show hamming_distance hD hA = 14 from by decide,
      show hD.length = 64 from by decide]
    norm_num
  have hdb : hash_similarity hD hB = 29 / 32 := by
    rw [hash_similarity, show hamming_distance hD hB = 6 from by decide,
      show hD.length = 64 from by decide]
    norm_num
  have hdc : hash_similarity hD hC = 13 / 16 := by
    rw [hash_similarity, show hamming_distance hD hC = 12 from by decide,
      show hD.length = 64 from by decide]
    norm_num
  have kab : (hA == hB) = false := by decide
  have kac : (hA == hC) = false := by decide
  have kad : (hA == hD) = false := by decide
  have kcd : (hC == hD) = false := by decide
  refine ⟨by norm_num, ?_, ?_⟩
  · norm_num [group_and_deduplicate, group_and_deduplicate_step,
      find_or_create_group, bestMatchFrom, dictInsert, gdInit, c3Records,
      List.foldl_cons, List.foldl_nil, List.any_cons, List.any_nil,
      hba, hca, hcb, hda, hdb, hdc, kab, kac, kad, kcd]
  · norm_num [group_and_deduplicate, group_and_deduplicate_step,
      find_or_create_group, bestMatchFrom, dictInsert, gdInit, c3Records,
      List.foldl_cons, List.foldl_nil, List.any_cons, List.any_nil,
      hba, hca, hcb, hda, hdb, hdc, kab, kac, kad, kcd]

theorem save_slides_go_ok {F : Type} (e : Env F) (of : String) (fps : ℚ)
    (sg : List (ℤ × List (ℕ × List Bool))) :
    ∀ (l : List (ℕ × F)) (k : ℕ) (files : List String)
      (metas : List MetaRec) (out : SaveOut),
      save_slides_go e of fps sg k files metas l = Except.ok out →
        (∃ u, e.writeMetaFile = Except.ok u)
        ∧ out.saved_files.length = files.length + l.length
        ∧ out.slides_meta.length = metas.length + l.length
        ∧ ∀ p ∈ out.saved_files, p ∈ files ∨ ∃ b, e.imwrite p = Except.ok b := by
  intro l
  induction l with
  | nil =>
    intro k files metas out h
    rw [save_slides_go] at h
    cases hm : e.writeMetaFile with
    | error msg =>
      rw [hm] at h
      exact absurd h (by simp)
    | ok u =>
      rw [hm] at h
      have hout : out = ⟨files, metas⟩ := (Except.ok.inj h).symm
      subst hout
      exact ⟨⟨u, rfl⟩, by simp, by simp, fun p hp => Or.inl hp⟩
  | cons r rest ih =>
    intro k files metas out h
    match r with
    | (frame_idx, frame) =>
      rw [save_slides_go] at h
      cases hw : e.imwrite (of ++ "/" ++ e.fnameImp k frame_idx
          (frameToGroup sg frame_idx)
          (calculate_phash e.resizeMat e.dct frame)) with
      | error msg =>
        rw [hw] at h
        exact absurd h (by simp)
      | ok b =>
        rw [hw] at h
        obtain ⟨hmeta, hlen1, hlen2, hmem⟩ := ih _ _ _ _ h
        refine ⟨hmeta, ?_, ?_, ?_⟩
        · simp only [List.length_append, List.length_cons,
            List.length_nil] at hlen1 ⊢
          omega
        · simp only [List.length_append, List.length_cons,
            List.length_nil] at hlen2 ⊢
          omega
        · intro p hp
          rcases hmem p hp with hin | hok
          · rcases List.mem_append.mp hin with hin2 | hin2
            · exact Or.inl hin2
            · have hp2 : p = of ++ "/" ++ e.fnameImp k frame_idx
                  (frameToGroup sg frame_idx)
                  (calculate_phash e.resizeMat e.dct frame) := by
                simpa using hin2
              subst hp2
              exact Or.inr ⟨b, hw⟩
          · exact Or.inr hok

theorem save_slides_go_total {F : Type} (e : Env F) (of : String) (fps : ℚ)
    (sg : List (ℤ × List (ℕ × List Bool)))
    (hw : ∀ p, ∃ b, e.imwrite p = Except.ok b)
    (hm : ∃ u, e.writeMetaFile = Except.ok u) :
    ∀ (l : List (ℕ × F)) (k : ℕ) (files : List String) (metas : List MetaRec),
      ∃ out, save_slides_go e of fps sg k files metas l = Except.ok out := by
  intro l
  induction l with
  | nil =>
    intro k files metas
    obtain ⟨u, hu⟩ := hm
    rw [save_slides_go, hu]
    exact ⟨⟨files, metas⟩, rfl⟩
  | cons r rest ih =>
    intro k files metas
    match r with
    | (frame_idx, frame) =>
      obtain ⟨b, hb⟩ := hw (of ++ "/" ++ e.fnameImp k frame_idx
        (frameToGroup sg frame_idx) (calculate_phash e.resizeMat e.dct frame))
      rw [save_slides_go, hb]
      exact ih _ _ _

/-- C7 (amended): `save_slides` writes the metadata file only after every
image write CALL has completed without raising: when it returns successfully,
the metadata write succeeded, every saved path's image write returned without
an exception, and the metadata lists one record per slide; and it completes
whenever no write raises.  However an image write that merely reports failure
by returning false is not checked (the returned boolean is discarded), so the
metadata file can still be written referencing an image that was never
persisted — see the counterexample theorem. -/
theorem claim_C7_emit {F : Type} (e : Env F) (of : String) (fps : ℚ)
    (sg : List (ℤ × List (ℕ × List Bool))) (sf : List (ℕ × F)) :
    (∀ out, save_slides e of fps sg sf = Except.ok out →
      (∃ u, e.writeMetaFile = Except.ok u)
      ∧ (∀ p ∈ out.saved_files, ∃ b, e.imwrite p = Except.ok b)
      ∧ out.saved_files.length = sf.length
      ∧ out.slides_meta.length = sf.length)
    ∧ ((∀ p, ∃ b, e.imwrite p = Except.ok b) →
        (∃ u, e.writeMetaFile = Except.ok u) →
        ∃ out, save_slides e of fps sg sf = Except.ok out) := by
  have hlen : (sortByKey sf).length = sf.length :=
    (List.mergeSort_perm sf _).length_eq
  constructor
  · intro out h
    obtain ⟨hmeta, hlen1, hlen2, hmem⟩ :=
      save_slides_go_ok e of fps sg (sortByKey sf) 0 [] [] out h
    refine ⟨hmeta, ?_, ?_, ?_⟩
    · intro p hp
      rcases hmem p hp with hin | hok
      · exact absurd hin (by simp)
      · exact hok
    · simpa [hlen] using hlen1
    · simpa [hlen] using hlen2
  · intro hw hm
    exact save_slides_go_total e of fps sg hw hm (sortByKey sf) 0 [] []

/-- Environment whose image writes always FAIL by returning false (as
`cv2.imwrite` does on an unwritable path) while raising nothing. -/
def c7Env : Env ℕ := { c4Env with imwrite := fun _ => .ok false }

/-- C7 counterexample: with an image write that fails by returning false, the
emit stage does not abort — `save_slides` completes, reports the failed path
among `saved_files`, and writes the metadata file referencing the slide whose
image was never persisted.  So the metadata record is written after the image
write CALLS, not after their success. -/
theorem claim_C7_counterexample :
    c7Env.imwrite "out/slide.jpg" = .ok false
    ∧ ∃ out, save_slides c7Env "out" 1 [] [(10, 0)] = .ok out
        ∧ out.saved_files = ["out/slide.jpg"]
        ∧ out.slides_meta.map (fun m => m.filename) = ["slide.jpg"] := by
  refine ⟨rfl, ?_⟩
  refine ⟨⟨["out/slide.jpg"],
    [⟨1, "slide.jpg", 10, ((10 : ℕ) : ℚ) / 1,
      calculate_phash c7Env.resizeMat c7Env.dct 0 8, -1, []⟩]⟩, ?_, rfl, rfl⟩
  rw [save_slides,
    show sortByKey [((10 : ℕ), (0 : ℕ))] = [(10, 0)] from
      List.mergeSort_singleton _,
    save_slides_go]
  rw [show c7Env.imwrite ("out" ++ "/" ++ c7Env.fnameImp 0 10
      (frameToGroup [] 10) (calculate_phash c7Env.resizeMat c7Env.dct 0 8)) =
      .ok false from rfl]
  rw [save_slides_go]
  rw [show c7Env.writeMetaFile = .ok () from rfl]
  rfl

/-- Witness for the C7 theorem: with writes that never raise, `save_slides`
completes successfully. -/
theorem claim_C7_witness :
    ∃ out, save_slides c4Env "out" 1 [] [(10, (0 : ℕ))] = Except.ok out :=
  (claim_C7_emit c4Env "out" 1 [] [(10, 0)]).2
    (fun _ => ⟨true, rfl⟩) ⟨(), rfl⟩

/-- The save stage of `multi_strategy_capture`, spelled out. -/
def impPipelineSave {F : Type} (e : Env F) (c : ImpCap) :
    Except String SaveOut :=
  save_slides e c.output_folder c.fps
    (supplementary_detection e c.fps (precise_detection e c.threshold c.fps
      (fast_scan e c.total_frames))).2
    (supplementary_detection e c.fps (precise_detection e c.threshold c.fps
      (fast_scan e c.total_frames))).1

theorem multi_strategy_capture_shape {F : Type} (e : Env F) (c : ImpCap) :
    multi_strategy_capture e c =
      match e.makedirs with
      | .error msg => (false, .err msg)
      | .ok _ =>
        match impPipelineSave e c with
        | .error msg => (false, .err msg)
        | .ok out => (true, .ok c.output_folder out.saved_files.length
            out.saved_files c.total_frames e.now) := rfl

/-- The grouped state computed by `advanced_capture` before saving. -/
def advPipelineGD {F : Type} (e : Env F) (c : AdvCap) : GDState F :=
  group_and_deduplicate c.group_threshold c.fps
    (precise_detection_with_hashing e c.similarity_threshold c.fps
      (fast_scan e c.total_frames))
    ⟨⟨[], [], 0⟩, [], []⟩

/-- The save stage of `advanced_capture`, spelled out. -/
def advPipelineSave {F : Type} (e : Env F) (c : AdvCap) :
    Except String (List String × List SlideInfo) :=
  save_slides_with_grouping_go e c.output_folder [] []
    (advPipelineGD e c).final_slides

theorem advanced_capture_shape {F : Type} (e : Env F) (c : AdvCap) :
    advanced_capture e c =
      match e.makedirs with
      | .error msg => (false, .err msg)
      | .ok _ =>
        match advPipelineSave e c with
        | .error msg => (false, .err msg)
        | .ok out =>
          match e.writeMetaFile with
          | .error msg => (false, .err msg)
          | .ok _ => (true, .ok c.output_folder out.1.length
              (advPipelineGD e c).st.current_group_id out.1
              (c.output_folder ++ "/" ++ "slides_metadata.json")
              (generate_statistics out.2
                (advPipelineGD e c).st.current_group_id)) := rfl

/-- C10: the public entry points are total and never propagate an exception.
For every environment and configuration, `multi_strategy_capture` and
`advanced_capture` return a (success, result-dict) pair, which is either
`(true, ok ...)` or `(false, err msg)` with `msg` the message of the raised
internal error; in particular a raised `os.makedirs` error is handed back as
`(false, {"error": msg})`, never re-raised. -/
theorem claim_C10_no_raise {F : Type} (e : Env F) (ci : ImpCap)
    (ca : AdvCap) :
    ((∃ of n files tf t, multi_strategy_capture e ci =
        (true, .ok of n files tf t))
      ∨ (∃ msg, multi_strategy_capture e ci = (false, .err msg)))
    ∧ ((∃ of n g files mf st, advanced_capture e ca =
        (true, .ok of n g files mf st))
      ∨ (∃ msg, advanced_capture e ca = (false, .err msg)))
    ∧ (∀ msg, e.makedirs = Except.error msg →
        multi_strategy_capture e ci = (false, .err msg)
        ∧ advanced_capture e ca = (false, .err msg)) := by
  refine ⟨?_, ?_, ?_⟩
  · rw [multi_strategy_capture_shape]
    cases e.makedirs with
    | error msg => exact Or.inr ⟨msg, rfl⟩
    | ok u =>
      cases impPipelineSave e ci with
      | error msg => exact Or.inr ⟨msg, rfl⟩
      | ok out => exact Or.inl ⟨_, _, _, _, _, rfl⟩
  · rw [advanced_capture_shape]
    cases e.makedirs with
    | error msg => exact Or.inr ⟨msg, rfl⟩
    | ok u =>
      cases advPipelineSave e ca with
      | error msg => exact Or.inr ⟨msg, rfl⟩
      | ok out =>
        cases e.writeMetaFile with
        | error msg => exact Or.inr ⟨msg, rfl⟩
        | ok u2 => exact Or.inl ⟨_, _, _, _, _, _, rfl⟩
  · intro msg hm
    rw [multi_strategy_capture_shape, advanced_capture_shape, hm]
    exact ⟨rfl, rfl⟩

/-- Environment whose directory creation raises. -/
def c10Env : Env ℕ := { c4Env with makedirs := .error "boom" }

/-- Witness for the C10 theorem: a raised makedirs error comes back as
`(False, {"error": msg})` from both entry points. -/
theorem claim_C10_witness :
    c10Env.makedirs = Except.error "boom"
    ∧ multi_strategy_capture c10Env (improvedInit "v" "o" 0.85 0 30) =
      (false, .err "boom")
    ∧ advanced_capture c10Env (advancedInit "v" "o" 0.85 0.9 0 30) =
      (false, .err "boom") := by
  have h := (claim_C10_no_raise c10Env (improvedInit "v" "o" 0.85 0 30)
    (advancedInit "v" "o" 0.85 0.9 0 30)).2.2 "boom" rfl
  exact ⟨rfl, h.1, h.2⟩

theorem fast_scan_empty : fast_scan c4Env 0 = [] := by
  simp [fast_scan, rangeStep, sortedSet, List.mergeSort_nil]

theorem advanced_capture_empty_video (vp of : String) (st gt : ℚ) :
    (advanced_capture c4Env (advancedInit vp of st gt 0 30)).1 = true := by
  have hsave : advPipelineSave c4Env (advancedInit vp of st gt 0 30) =
      Except.ok ([], []) := by
    simp [advPipelineSave, advPipelineGD, advancedInit, fast_scan_empty,
      precise_detection_with_hashing, group_and_deduplicate,
      save_slides_with_grouping_go]
  rw [advanced_capture_shape, hsave]
  rfl

theorem multi_strategy_capture_empty_video (vp of : String) (t : ℚ) :
    (multi_strategy_capture c4Env (improvedInit vp of t 0 30)).1 = true := by
  have hsave : impPipelineSave c4Env (improvedInit vp of t 0 30) =
      Except.ok ⟨[], []⟩ := by
    simp [impPipelineSave, improvedInit, fast_scan_empty, precise_detection,
      supplementary_detection, gapFill, sortByKey, List.mergeSort_nil,
      assignGroups, dedupKeepFirst, save_slides, save_slides_go]
    rfl
  rw [multi_strategy_capture_shape, hsave]
  rfl

/-- C2 (amended): neither constructor validates its configuration — any
thresholds, inside `(0,1)` or not, ordered or not, are stored unchanged and
the class is constructed; no ConfigError mechanism exists anywhere (neither
implementation even has a `min_slide_interval` parameter: the dwell bounds are
hard-coded).  Moreover the pipeline then runs normally, and can even complete
successfully, under arbitrary threshold values. -/
theorem claim_C2_no_validation (vp of : String) (st gt t : ℚ) (tf : ℕ)
    (fps : ℚ) :
    advancedInit vp of st gt tf fps =
      { video_path := vp, output_folder := of, similarity_threshold := st,
        group_threshold := gt, total_frames := tf, fps := fps }
    ∧ improvedInit vp of t tf fps =
      { video_path := vp, output_folder := of, threshold := t,
        total_frames := tf, fps := fps }
    ∧ (advanced_capture c4Env (advancedInit vp of st gt 0 30)).1 = true
    ∧ (multi_strategy_capture c4Env (improvedInit vp of t 0 30)).1 = true :=
  ⟨rfl, rfl, advanced_capture_empty_video vp of st gt,
    multi_strategy_capture_empty_video vp of t⟩

/-- C2 counterexample: with `similarity_threshold = 3/2` outside `(0,1)` and
`group_threshold = 1/2 < similarity_threshold`, constructing the advanced
capture succeeds, stores the invalid values verbatim, and the full capture run
returns success — no ConfigError is reported, before or after reading
frames. -/
theorem claim_C2_counterexample :
    (¬ (0 < (3 / 2 : ℚ) ∧ (3 / 2 : ℚ) < 1))
    ∧ (1 / 2 : ℚ) < 3 / 2
    ∧ advancedInit "v" "o" (3 / 2) (1 / 2) 0 30 =
      { video_path := "v", output_folder := "o",
        similarity_threshold := 3 / 2, group_threshold := 1 / 2,
        total_frames := 0, fps := 30 }
    ∧ (advanced_capture c4Env (advancedInit "v" "o" (3 / 2) (1 / 2) 0 30)).1 =
      true := by
  refine ⟨by norm_num, by norm_num, rfl, ?_⟩
  exact advanced_capture_empty_video "v" "o" (3 / 2) (1 / 2)

/-! Toward C5: the emitted slide list is strictly sorted with distinct frame
indices.  First, bounds and distinctness of the re-sampling ranges. -/

theorem rangeStep_mem (a b s x : ℕ) (hs : 1 ≤ s) (hx : x ∈ rangeStep a b s) :
    a ≤ x ∧ x < b := by
  unfold rangeStep at hx
  obtain ⟨k, hk, hxe⟩ := List.mem_map.mp hx
  rw [List.mem_range] at hk
  subst hxe
  refine ⟨Nat.le_add_right a (k * s), ?_⟩
  have h1 : (k + 1) * s ≤ ((b - a + s - 1) / s) * s :=
    Nat.mul_le_mul_right s hk
  have h2 : ((b - a + s - 1) / s) * s ≤ b - a + s - 1 :=
    Nat.div_mul_le_self (b - a + s - 1) s
  have h3 : (k + 1) * s = k * s + s := by ring
  omega

theorem rangeStep_nodup (a b s : ℕ) (hs : 1 ≤ s) : (rangeStep a b s).Nodup := by
  unfold rangeStep
  refine List.Nodup.map ?_ (List.nodup_range _)
  intro x y hxy
  have hxy2 : x * s = y * s := by simpa using hxy
  exact Nat.eq_of_mul_eq_mul_right hs hxy2

theorem stepLen_pos_fps (fps : ℚ) (hs : 1 ≤ stepLen fps) : 0 < fps := by
  by_contra hneg
  push_neg at hneg
  have hq : fps * 5 ≤ 0 := mul_nonpos_of_nonpos_of_nonneg hneg (by norm_num)
  have hnum : (fps * 5).num ≤ 0 := Rat.num_nonpos.mpr hq
  have hden : (0 : ℤ) < ((fps * 5).den : ℤ) := by
    exact_mod_cast (fps * 5).den_pos
  have hdiv : (fps * 5).num / ((fps * 5).den : ℤ) ≤ 0 := by
    calc (fps * 5).num / ((fps * 5).den : ℤ)
        ≤ 0 / ((fps * 5).den : ℤ) := Int.ediv_le_ediv hden hnum
      _ = 0 := Int.zero_ediv _
  have : stepLen fps = 0 := by
    unfold stepLen pyInt
    omega
  omega

/-- Sortedness invariant of the precise-detection loops. -/
def pdInv {R F : Type} (key : R → ℕ) (s : PDState R F) : Prop :=
  s.acc.Pairwise (fun x y => key x < key y) ∧ ∀ x ∈ s.acc, (key x : ℤ) ≤ s.prevIdx

theorem pd_fold_inv {R F : Type} (key : R → ℕ) (bound : ℚ) (hb : 0 ≤ bound)
    (σ : PDState R F → ℕ → PDState R F)
    (hσ : ∀ (s : PDState R F) (idx : ℕ), σ s idx = s ∨ ∃ (r : R) (f : F),
      key r = idx ∧ ((idx : ℚ) - (s.prevIdx : ℚ)) > bound ∧
      σ s idx = ⟨s.acc ++ [r], some f, (idx : ℤ)⟩) :
    ∀ (l : List ℕ) (s : PDState R F), pdInv key s → pdInv key (l.foldl σ s) := by
  intro l
  induction l with
  | nil => intro s h; exact h
  | cons idx rest ih =>
    intro s h
    rw [List.foldl_cons]
    refine ih (σ s idx) ?_
    rcases hσ s idx with heq | ⟨r, f, hkey, hdwell, heq⟩
    · rw [heq]; exact h
    · rw [heq]
      have hprev : s.prevIdx < (idx : ℤ) := by
        have hq : (s.prevIdx : ℚ) < (idx : ℚ) := by linarith
        exact_mod_cast hq
      constructor
      · rw [List.pairwise_append]
        refine ⟨h.1, List.pairwise_singleton _ _, ?_⟩
        intro x hx y hy
        have hyr : y = r := List.mem_singleton.mp hy
        subst hyr
        rw [hkey]
        have := h.2 x hx
        omega
      · intro x hx
        rcases List.mem_append.mp hx with hx2 | hx2
        · have := h.2 x hx2
          show (key x : ℤ) ≤ (idx : ℤ)
          omega
        · have hxr : x = r := List.mem_singleton.mp hx2
          subst hxr
          rw [hkey]

theorem precise_detection_sorted {F : Type} (e : Env F) (t fps : ℚ)
    (hfps : 0 ≤ fps) (cands : List ℕ) :
    (precise_detection e t fps cands).Pairwise (fun x y => x.1 < y.1) := by
  have h := pd_fold_inv (fun (r : ℕ × F) => r.1) fps hfps
    (precise_detection_step e t fps) ?_ cands ⟨[], none, -1⟩
    ⟨List.Pairwise.nil, by simp⟩
  · exact h.1
  · intro s idx
    cases hr : e.read idx with
    | none =>
      left
      simp only [precise_detection_step, hr]
    | some frame =>
      by_cases hc : judgeNewSlideImp e t s.prev frame = true ∧
          ((idx : ℚ) - (s.prevIdx : ℚ)) > fps
      · right
        refine ⟨(idx, frame), frame, rfl, hc.2, ?_⟩
        simp only [precise_detection_step, hr, if_pos hc]
      · left
        simp only [precise_detection_step, hr, if_neg hc]

theorem precise_detection_with_hashing_sorted {F : Type} (e : Env F)
    (t fps : ℚ) (hfps : 0 ≤ fps) (cands : List ℕ) :
    (precise_detection_with_hashing e t fps cands).Pairwise
      (fun x y => x.1 < y.1) := by
  have hb : 0 ≤ fps * 0.5 := mul_nonneg hfps (by norm_num)
  have h := pd_fold_inv (fun (r : ℕ × F × List Bool × List Bool) => r.1)
    (fps * 0.5) hb (precise_detection_with_hashing_step e t fps) ?_ cands
    ⟨[], none, -1⟩ ⟨List.Pairwise.nil, by simp⟩
  · exact h.1
  · intro s idx
    cases hr : e.read idx with
    | none =>
      left
      simp only [precise_detection_with_hashing_step, hr]
    | some frame =>
      by_cases hc : judgeNewSlideAdv e t s.prev frame = true ∧
          ((idx : ℚ) - (s.prevIdx : ℚ)) > fps * 0.5
      · right
        refine ⟨(idx, frame, compute_phash e.resizeMat e.dct frame,
          compute_dhash e.resizeMat frame), frame, rfl, hc.2, ?_⟩
        simp only [precise_detection_with_hashing_step, hr, if_pos hc]
      · left
        simp only [precise_detection_with_hashing_step, hr, if_neg hc]

theorem gapCore_mem {F : Type} (e : Env F) (fps : ℚ) (l : List (ℕ × F))
    (i : ℕ) (r1 r2 : ℕ × F) (hs : 1 ≤ stepLen fps) :
    ∀ x ∈ gapCore e fps l i r1 r2, r1.1 < x.1 ∧ x.1 < r2.1 := by
  intro x hx
  unfold gapCore at hx
  by_cases hgap : ((r2.1 : ℚ) - (r1.1 : ℚ)) > fps * 30
  · rw [if_pos hgap] at hx
    obtain ⟨ci, hci, hsome⟩ := List.mem_filterMap.mp hx
    have hbounds := rangeStep_mem (r1.1 + stepLen fps) r2.1 (stepLen fps) ci
      hs hci
    have hx1 : x.1 = ci := by
      cases hread : e.read ci with
      | none => simp [hread] at hsome
      | some frame =>
        simp only [hread] at hsome
        by_cases hwin : (gapWindow l i).all
            (fun ex => decide (¬ e.ssim ex.2 frame > 0.95)) = true
        · rw [if_pos hwin] at hsome
          have hcix : (ci, frame) = x := Option.some.inj hsome
          rw [← hcix]
        · rw [if_neg hwin] at hsome
          simp at hsome
    rw [hx1]
    omega
  · rw [if_neg hgap] at hx
    simp at hx

theorem gapCore_key_nodup {F : Type} (e : Env F) (fps : ℚ)
    (l : List (ℕ × F)) (i : ℕ) (r1 r2 : ℕ × F) (hs : 1 ≤ stepLen fps) :
    ((gapCore e fps l i r1 r2).map (fun x => x.1)).Nodup := by
  unfold gapCore
  by_cases hgap : ((r2.1 : ℚ) - (r1.1 : ℚ)) > fps * 30
  · rw [if_pos hgap]
    have hsub : ∀ (rs : List ℕ),
        ((rs.filterMap (fun check_idx =>
          match e.read check_idx with
          | none => none
          | some frame =>
            if (gapWindow l i).all
                (fun ex => decide (¬ e.ssim ex.2 frame > 0.95)) then
              some (check_idx, frame)
            else none)).map (fun x => x.1)).Sublist rs := by
      intro rs
      induction rs with
      | nil => simp
      | cons ci rest ih =>
        cases hread : e.read ci with
        | none =>
          simp only [List.filterMap_cons, hread]
          exact ih.cons ci
        | some frame =>
          by_cases hwin : (gapWindow l i).all
              (fun ex => decide (¬ e.ssim ex.2 frame > 0.95)) = true
          · simp only [List.filterMap_cons, hread, if_pos hwin, List.map_cons]
            exact ih.cons₂ ci
          · simp only [List.filterMap_cons, hread, if_neg hwin]
            exact ih.cons ci
    exact (hsub _).nodup
      (rangeStep_nodup (r1.1 + stepLen fps) r2.1 (stepLen fps) hs)
  · rw [if_neg hgap]
    simp

theorem gapAt_mem {F : Type} (e : Env F) (fps : ℚ) (l : List (ℕ × F))
    (i : ℕ) (hs : 1 ≤ stepLen fps) :
    ∀ x ∈ gapAt e fps l i, ∃ r1 r2, l[i]? = some r1 ∧ l[i + 1]? = some r2 ∧
      r1.1 < x.1 ∧ x.1 < r2.1 := by
  intro x hx
  unfold gapAt at hx
  cases h1 : l[i]? with
  | none =>
    rw [h1] at hx
    simp at hx
  | some r1 =>
    cases h2 : l[i + 1]? with
    | none =>
      rw [h1, h2] at hx
      simp at hx
    | some r2 =>
      rw [h1, h2] at hx
      exact ⟨r1, r2, rfl, rfl, gapCore_mem e fps l i r1 r2 hs x hx⟩

theorem gapAt_key_nodup {F : Type} (e : Env F) (fps : ℚ) (l : List (ℕ × F))
    (i : ℕ) (hs : 1 ≤ stepLen fps) :
    ((gapAt e fps l i).map (fun x => x.1)).Nodup := by
  unfold gapAt
  cases h1 : l[i]? with
  | none => simp
  | some r1 =>
    cases h2 : l[i + 1]? with
    | none => simp
    | some r2 => exact gapCore_key_nodup e fps l i r1 r2 hs

theorem key_nodup_of_sorted {F : Type} (l : List (ℕ × F))
    (hsort : l.Pairwise (fun x y => x.1 < y.1)) :
    (l.map (fun x => x.1)).Nodup :=
  List.pairwise_map.mpr (hsort.imp (fun h => Nat.ne_of_lt h))

theorem sorted_key_le {F : Type} (l : List (ℕ × F))
    (hsort : l.Pairwise (fun x y => x.1 < y.1)) (i j : ℕ)
    (hi : i < l.length) (hj : j < l.length) (hij : i ≤ j) :
    (l[i]).1 ≤ (l[j]).1 := by
  rcases Nat.lt_or_ge i j with h | h
  · exact le_of_lt (List.pairwise_iff_getElem.mp hsort i j hi hj h)
  · have heq : i = j := le_antisymm hij h
    subst heq
    exact le_refl _

theorem gapFill_key_nodup {F : Type} (e : Env F) (fps : ℚ)
    (l : List (ℕ × F)) (hs : 1 ≤ stepLen fps)
    (hsort : l.Pairwise (fun x y => x.1 < y.1)) :
    ((gapFill e fps l).map (fun x => x.1)).Nodup := by
  unfold gapFill
  rw [List.map_flatMap, List.nodup_flatMap]
  constructor
  · intro i _
    exact gapAt_key_nodup e fps l i hs
  · have hr : (List.range (l.length - 1)).Pairwise (· < ·) :=
      List.pairwise_lt_range _
    refine hr.imp ?_
    intro i j hij
    intro a hai haj
    obtain ⟨x, hx, hxa⟩ := List.mem_map.mp hai
    obtain ⟨y, hy, hya⟩ := List.mem_map.mp haj
    obtain ⟨r1, r2, h1, h2, hb1, hb2⟩ := gapAt_mem e fps l i hs x hx
    obtain ⟨s1, s2, g1, g2, hc1, hc2⟩ := gapAt_mem e fps l j hs y hy
    obtain ⟨hi2len, hr2⟩ := List.getElem?_eq_some_iff.mp h2
    obtain ⟨hj1len, hs1⟩ := List.getElem?_eq_some_iff.mp g1
    have hle := sorted_key_le l hsort (i + 1) j hi2len hj1len hij
    rw [hr2, hs1] at hle
    omega

theorem finalFrames_key_nodup {F : Type} (e : Env F) (fps : ℚ)
    (l : List (ℕ × F)) (hs : 1 ≤ stepLen fps)
    (hsort : l.Pairwise (fun x y => x.1 < y.1)) :
    ((l ++ gapFill e fps l).map (fun x => x.1)).Nodup := by
  rw [List.map_append, List.nodup_append]
  refine ⟨key_nodup_of_sorted l hsort, gapFill_key_nodup e fps l hs hsort, ?_⟩
  intro a hal hag
  obtain ⟨x, hx, hxa⟩ := List.mem_map.mp hal
  obtain ⟨y, hy, hya⟩ := List.mem_map.mp hag
  unfold gapFill at hy
  obtain ⟨i, _, hyi⟩ := List.mem_flatMap.mp hy
  obtain ⟨r1, r2, h1, h2, hb1, hb2⟩ := gapAt_mem e fps l i hs y hyi
  obtain ⟨hi1len, hr1⟩ := List.getElem?_eq_some_iff.mp h1
  obtain ⟨hi2len, hr2⟩ := List.getElem?_eq_some_iff.mp h2
  obtain ⟨k, hklen, hkx⟩ := List.mem_iff_getElem.mp hx
  rcases le_or_lt k i with hki | hki
  · have hle := sorted_key_le l hsort k i hklen hi1len hki
    rw [hkx, hr1] at hle
    omega
  · have hle := sorted_key_le l hsort (i + 1) k hi2len hklen hki
    rw [hkx, hr2] at hle
    omega

theorem sortByKey_perm {F : Type} (l : List (ℕ × F)) : (sortByKey l).Perm l :=
  List.mergeSort_perm l _

theorem sortByKey_sorted {F : Type} (l : List (ℕ × F)) :
    (sortByKey l).Pairwise (fun x y => x.1 ≤ y.1) := by
  have h := @List.sorted_mergeSort (ℕ × F)
    (fun (a b : ℕ × F) => decide (a.1 ≤ b.1))
    (fun a b c hab hbc => decide_eq_true
      (le_trans (of_decide_eq_true hab) (of_decide_eq_true hbc)))
    (fun a b => by
      simp only [Bool.or_eq_true, decide_eq_true_eq]
      exact Nat.le_total a.1 b.1)
    l
  exact h.imp (fun hab => of_decide_eq_true hab)

theorem strict_of_sorted_nodup {F : Type} (l : List (ℕ × F))
    (hso : l.Pairwise (fun x y => x.1 ≤ y.1))
    (hnd : (l.map (fun x => x.1)).Nodup) :
    l.Pairwise (fun x y => x.1 < y.1) := by
  have hne : l.Pairwise (fun x y => x.1 ≠ y.1) := List.pairwise_map.mp hnd
  exact (hso.and hne).imp (fun h => lt_of_le_of_ne h.1 h.2)

theorem assignGroups_strip_bounded {F : Type} :
    ∀ (n : ℕ) (l : List (FrameDatum F)) (g : ℕ), l.length ≤ n →
      (assignGroups g l).map (fun d => (d.frame_idx, d.frame)) =
        l.map (fun d => (d.frame_idx, d.frame)) := by
  intro n
  induction n with
  | zero =>
    intro l g hl
    have hnil : l = [] := List.eq_nil_of_length_eq_zero (Nat.le_zero.mp hl)
    subst hnil
    simp [assignGroups]
  | succ n ih =>
    intro l g hl
    cases l with
    | nil => simp [assignGroups]
    | cons d rest =>
      rw [assignGroups]
      by_cases hg : d.group = -1
      · rw [if_pos hg, List.map_cons, List.map_cons,
          ih _ (g + 1) (by simpa using hl)]
        congr 1
        rw [List.map_map]
        apply List.map_congr_left
        intro x _
        by_cases hx : x.group = -1 ∧
            calculate_phash_similarity d.phash x.phash > 0.9
        · simp [hx]
        · simp [hx]
      · rw [if_neg hg, List.map_cons, List.map_cons,
          ih rest g (by simpa using hl)]

theorem assignGroups_strip {F : Type} (g : ℕ) (l : List (FrameDatum F)) :
    (assignGroups g l).map (fun d => (d.frame_idx, d.frame)) =
      l.map (fun d => (d.frame_idx, d.frame)) :=
  assignGroups_strip_bounded l.length l g (le_refl _)

theorem foldl_pick_mem {F : Type} (e : Env F) :
    ∀ (ms : List (FrameDatum F)) (b : FrameDatum F),
      ms.foldl (fun best x =>
        if e.sharp x.frame > e.sharp best.frame then x else best) b = b
      ∨ ms.foldl (fun best x =>
        if e.sharp x.frame > e.sharp best.frame then x else best) b ∈ ms := by
  intro ms
  induction ms with
  | nil => intro b; exact Or.inl rfl
  | cons x rest ih =>
    intro b
    rw [List.foldl_cons]
    rcases ih (if e.sharp x.frame > e.sharp b.frame then x else b) with heq | hmem
    · rw [heq]
      by_cases hc : e.sharp x.frame > e.sharp b.frame
      · rw [if_pos hc]
        exact Or.inr (List.mem_cons_self x rest)
      · rw [if_neg hc]
        exact Or.inl rfl
    · exact Or.inr (List.mem_cons_of_mem x hmem)

theorem pickClearest_mem {F : Type} (e : Env F) (l : List (FrameDatum F))
    (m : FrameDatum F) (h : pickClearest e l = some m) : m ∈ l := by
  cases l with
  | nil => simp [pickClearest] at h
  | cons m0 ms =>
    simp only [pickClearest] at h
    by_cases he : ms.isEmpty = true
    · rw [if_pos he] at h
      have : m0 = m := Option.some.inj h
      rw [← this]
      exact List.mem_cons_self m0 ms
    · rw [if_neg he] at h
      have heq := Option.some.inj h
      rcases foldl_pick_mem e ms m0 with hb | hmem
      · rw [← heq, hb]
        exact List.mem_cons_self m0 ms
      · rw [← heq]
        exact List.mem_cons_of_mem m0 hmem

theorem dedupKeepFirst_mem : ∀ (l : List ℤ) (g : ℤ),
    g ∈ dedupKeepFirst l → g ∈ l := by
  intro l
  induction l using dedupKeepFirst.induct with
  | case1 =>
    intro g hg
    rw [dedupKeepFirst] at hg
    exact absurd hg (List.not_mem_nil g)
  | case2 b t2 ih2 =>
    intro g hg
    rw [dedupKeepFirst] at hg
    rcases List.mem_cons.mp hg with rfl | hg2
    · exact List.mem_cons_self g _
    · exact List.mem_cons_of_mem b (List.mem_of_mem_filter (ih2 g hg2))

theorem dedupKeepFirst_nodup : ∀ l : List ℤ, (dedupKeepFirst l).Nodup := by
  intro l
  induction l using dedupKeepFirst.induct with
  | case1 =>
    rw [dedupKeepFirst]
    exact List.nodup_nil
  | case2 a l ih =>
    rw [dedupKeepFirst]
    refine List.Nodup.cons ?_ ih
    intro hmem
    have h1 := dedupKeepFirst_mem _ a hmem
    have h2 := List.of_mem_filter h1
    simp at h2

theorem assignGroups_key {F : Type} (g : ℕ) (l : List (FrameDatum F)) :
    (assignGroups g l).map (fun d => d.frame_idx) =
      l.map (fun d => d.frame_idx) := by
  have h2 := congrArg (List.map (fun p : ℕ × F => p.1)) (assignGroups_strip g l)
  rw [List.map_map, List.map_map] at h2
  exact h2

theorem unique_frames_pairwise {F : Type} (e : Env F)
    (asg : List (FrameDatum F))
    (hnd : (asg.map (fun d => d.frame_idx)).Nodup)
    (gids : List ℤ) (hgids : gids.Nodup) :
    (gids.filterMap (fun g =>
      (pickClearest e (asg.filter (fun x => x.group == g))).map
        (fun m => (m.frame_idx, m.frame)))).Pairwise
      (fun x y => x.1 ≠ y.1) := by
  have hpw : gids.Pairwise (fun a b => a ≠ b) := hgids
  refine List.pairwise_filterMap.mpr (hpw.imp ?_)
  intro g g2 hne x hx y hy
  cases hp1 : pickClearest e (asg.filter (fun d => d.group == g)) with
  | none =>
    rw [hp1] at hx
    simp at hx
  | some m =>
    rw [hp1] at hx
    have hx2 : (m.frame_idx, m.frame) = x := by simpa using hx
    cases hp2 : pickClearest e (asg.filter (fun d => d.group == g2)) with
    | none =>
      rw [hp2] at hy
      simp at hy
    | some m2 =>
      rw [hp2] at hy
      have hy2 : (m2.frame_idx, m2.frame) = y := by simpa using hy
      have hm1 := pickClearest_mem e _ m hp1
      have hm2 := pickClearest_mem e _ m2 hp2
      have hmem1 : m ∈ asg := List.mem_of_mem_filter hm1
      have hmem2 : m2 ∈ asg := List.mem_of_mem_filter hm2
      have hg1 : m.group = g := by
        have := List.of_mem_filter hm1
        simpa using this
      have hg2 : m2.group = g2 := by
        have := List.of_mem_filter hm2
        simpa using this
      have hneq : m ≠ m2 := by
        intro hcon
        exact hne (by rw [← hg1, hcon, hg2])
      rw [← hx2, ← hy2]
      intro heq
      exact hneq (List.inj_on_of_nodup_map hnd hmem1 hmem2 heq)

theorem supplementary_detection_out {F : Type} (e : Env F) (fps : ℚ)
    (hs : 1 ≤ stepLen fps) (sf : List (ℕ × F))
    (hsort : sf.Pairwise (fun x y => x.1 < y.1)) :
    (supplementary_detection e fps sf).1.Pairwise (fun x y => x.1 < y.1)
    ∧ ((supplementary_detection e fps sf).1.map (fun x => x.1)).Nodup := by
  have hffnd : ((sortByKey (sf ++ gapFill e fps sf)).map
      (fun x => x.1)).Nodup :=
    (((sortByKey_perm (sf ++ gapFill e fps sf)).map (fun x => x.1)).symm).nodup
      (finalFrames_key_nodup e fps sf hs hsort)
  have hasgnd : ((assignGroups 0 ((sortByKey (sf ++ gapFill e fps sf)).map
      (fun r => FrameDatum.mk r.1 r.2
        (calculate_phash e.resizeMat e.dct r.2) (-1)))).map
      (fun d => d.frame_idx)).Nodup := by
    rw [assignGroups_key, List.map_map]
    exact hffnd
  have hu0 := unique_frames_pairwise e
    (assignGroups 0 ((sortByKey (sf ++ gapFill e fps sf)).map
      (fun r => FrameDatum.mk r.1 r.2
        (calculate_phash e.resizeMat e.dct r.2) (-1))))
    hasgnd
    (dedupKeepFirst ((assignGroups 0 ((sortByKey (sf ++ gapFill e fps sf)).map
      (fun r => FrameDatum.mk r.1 r.2
        (calculate_phash e.resizeMat e.dct r.2) (-1)))).map
      (fun d => d.group)))
    (dedupKeepFirst_nodup _)
  have hu0nd : ((dedupKeepFirst ((assignGroups 0
      ((sortByKey (sf ++ gapFill e fps sf)).map
        (fun r => FrameDatum.mk r.1 r.2
          (calculate_phash e.resizeMat e.dct r.2) (-1)))).map
      (fun d => d.group))).filterMap (fun g =>
        (pickClearest e ((assignGroups 0
          ((sortByKey (sf ++ gapFill e fps sf)).map
            (fun r => FrameDatum.mk r.1 r.2
              (calculate_phash e.resizeMat e.dct r.2) (-1)))).filter
          (fun x => x.group == g))).map
            (fun m => (m.frame_idx, m.frame)))).map (fun x => x.1) |>.Nodup :=
    List.pairwise_map.mpr hu0
  have hout : (supplementary_detection e fps sf).1 =
      sortByKey ((dedupKeepFirst ((assignGroups 0
        ((sortByKey (sf ++ gapFill e fps sf)).map
          (fun r => FrameDatum.mk r.1 r.2
            (calculate_phash e.resizeMat e.dct r.2) (-1)))).map
        (fun d => d.group))).filterMap (fun g =>
          (pickClearest e ((assignGroups 0
            ((sortByKey (sf ++ gapFill e fps sf)).map
              (fun r => FrameDatum.mk r.1 r.2
                (calculate_phash e.resizeMat e.dct r.2) (-1)))).filter
            (fun x => x.group == g))).map
              (fun m => (m.frame_idx, m.frame)))) := rfl
  rw [hout]
  constructor
  · refine strict_of_sorted_nodup _ (sortByKey_sorted _) ?_
    exact ((sortByKey_perm _).map (fun x => x.1)).symm.nodup hu0nd
  · exact ((sortByKey_perm _).map (fun x => x.1)).symm.nodup hu0nd

theorem gd_final_appended {F : Type} (gt fps : ℚ) :
    ∀ (rs : List (ℕ × F × List Bool × List Bool)) (s : GDState F),
      ∃ l2, (group_and_deduplicate gt fps rs s).final_slides =
          s.final_slides ++ l2
        ∧ (l2.map (fun x => x.1)).Sublist (rs.map (fun x => x.1))
        ∧ ∀ x ∈ l2, x.2.2.timestamp = (x.1 : ℚ) / fps := by
  intro rs
  induction rs with
  | nil =>
    intro s
    exact ⟨[], by simp [group_and_deduplicate], by simp, by simp⟩
  | cons r rest ih =>
    intro s
    have hcons : group_and_deduplicate gt fps (r :: rest) s =
        group_and_deduplicate gt fps rest
          (group_and_deduplicate_step gt fps s r) := rfl
    by_cases hc : s.processed_hashes.any
        (fun ph => decide (hash_similarity r.2.2.1 ph > 0.98)) = true
    · have hstep : group_and_deduplicate_step gt fps s r = s := by
        unfold group_and_deduplicate_step
        rw [if_pos hc]
      obtain ⟨l2, h1, h2, h3⟩ := ih (group_and_deduplicate_step gt fps s r)
      rw [hstep] at h1
      refine ⟨l2, ?_, h2.cons r.1, h3⟩
      rw [hcons, hstep]
      exact h1
    · obtain ⟨si, hfin, hts⟩ : ∃ si : SlideInfo,
          (group_and_deduplicate_step gt fps s r).final_slides =
            s.final_slides ++ [(r.1, r.2.1, si)]
          ∧ si.timestamp = (r.1 : ℚ) / fps := by
        refine ⟨{ frame_idx := r.1
                  timestamp := (r.1 : ℚ) / fps
                  phash := r.2.2.1
                  dhash := r.2.2.2
                  group_id := (find_or_create_group gt s.st r.2.2.1 r.2.2.2).1.1
                  subgroup_idx :=
                    (find_or_create_group gt s.st r.2.2.1 r.2.2.2).1.2
                  filename := ""
                  is_transition := false
                  similarity_to_prev := 0 }, ?_, rfl⟩
        unfold group_and_deduplicate_step
        rw [if_neg hc]
      obtain ⟨l2, h1, h2, h3⟩ := ih (group_and_deduplicate_step gt fps s r)
      refine ⟨(r.1, r.2.1, si) :: l2, ?_, ?_, ?_⟩
      · rw [hcons, h1, hfin, List.append_assoc]
        rfl
      · rw [List.map_cons, List.map_cons]
        exact h2.cons₂ r.1
      · intro x hx
        rcases List.mem_cons.mp hx with rfl | hx2
        · exact hts
        · exact h3 x hx2

theorem group_and_deduplicate_out {F : Type} (e : Env F) (t gt fps : ℚ)
    (hfps : 0 < fps) (cands : List ℕ) :
    ((group_and_deduplicate gt fps
        (precise_detection_with_hashing e t fps cands)
        ⟨⟨[], [], 0⟩, [], []⟩).final_slides).Pairwise
      (fun x y => x.2.2.timestamp < y.2.2.timestamp)
    ∧ (((group_and_deduplicate gt fps
        (precise_detection_with_hashing e t fps cands)
        ⟨⟨[], [], 0⟩, [], []⟩).final_slides).map (fun x => x.1)).Nodup := by
  obtain ⟨l2, h1, h2, h3⟩ := gd_final_appended gt fps
    (precise_detection_with_hashing e t fps cands) ⟨⟨[], [], 0⟩, [], []⟩
  have hin : ((precise_detection_with_hashing e t fps cands).map
      (fun x => x.1)).Pairwise (· < ·) :=
    List.pairwise_map.mpr
      (precise_detection_with_hashing_sorted e t fps (le_of_lt hfps) cands)
  have hl2keys : (l2.map (fun x => x.1)).Pairwise (· < ·) :=
    List.Pairwise.sublist h2 hin
  have hl2 : l2.Pairwise (fun x y => x.1 < y.1) :=
    List.pairwise_map.mp hl2keys
  have hfinal : (group_and_deduplicate gt fps
      (precise_detection_with_hashing e t fps cands)
      ⟨⟨[], [], 0⟩, [], []⟩).final_slides = l2 := by
    rw [h1]
    rfl
  rw [hfinal]
  constructor
  · refine List.Pairwise.imp_of_mem ?_ hl2
    intro x y hxmem hymem hxy
    rw [h3 x hxmem, h3 y hymem]
    exact div_lt_div_of_pos_right (by exact_mod_cast hxy) hfps
  · exact List.pairwise_map.mpr (hl2.imp (fun h => Nat.ne_of_lt h))

/-- C5: for every run, the emitted slide list is strictly sorted by timestamp
and has no duplicate frame index.  Improved pipeline: whatever the candidate
list, the precise pass accepts strictly increasing frame indices, and
`supplementary_detection` (gap filling, pHash grouping, representative choice,
final sort) returns a list strictly sorted by timestamp = frame_index / fps
with pairwise-distinct frame indices; `save_slides` re-sorts this same list
before emission.  Advanced pipeline: `group_and_deduplicate` preserves the
strict ordering of `precise_detection_with_hashing`, so `final_slides` (the
list saved and recorded in metadata) is strictly sorted by the timestamps
stored in its `SlideInfo` records, with distinct frame indices.  The
hypothesis `1 ≤ int(fps*5)` (i.e. fps ≥ 0.2) keeps the gap filler's Python
`range` step positive, where CPython would raise instead. -/
theorem claim_C5_emitted {F : Type} (e : Env F) (t tA gt fps : ℚ)
    (cands candsA : List ℕ) (hs : 1 ≤ stepLen fps) :
    ((supplementary_detection e fps
        (precise_detection e t fps cands)).1.Pairwise
      (fun x y => (x.1 : ℚ) / fps < (y.1 : ℚ) / fps)
      ∧ ((supplementary_detection e fps
        (precise_detection e t fps cands)).1.map (fun x => x.1)).Nodup)
    ∧ (((group_and_deduplicate gt fps
        (precise_detection_with_hashing e tA fps candsA)
        ⟨⟨[], [], 0⟩, [], []⟩).final_slides).Pairwise
      (fun x y => x.2.2.timestamp < y.2.2.timestamp)
      ∧ (((group_and_deduplicate gt fps
        (precise_detection_with_hashing e tA fps candsA)
        ⟨⟨[], [], 0⟩, [], []⟩).final_slides).map (fun x => x.1)).Nodup) := by
  have hfps : 0 < fps := stepLen_pos_fps fps hs
  constructor
  · have hsorted := precise_detection_sorted e t fps (le_of_lt hfps) cands
    obtain ⟨hpw, hnd⟩ := supplementary_detection_out e fps hs
      (precise_detection e t fps cands) hsorted
    refine ⟨hpw.imp ?_, hnd⟩
    intro x y hxy
    exact div_lt_div_of_pos_right (by exact_mod_cast hxy) hfps
  · exact group_and_deduplicate_out e tA gt fps hfps candsA

/-- Witness for the C5 theorem at fps 1 and the single candidate frame 5. -/
theorem claim_C5_witness :
    1 ≤ stepLen 1
    ∧ ((supplementary_detection c4wEnv 1
        (precise_detection c4wEnv (1 / 2) 1 [5])).1.Pairwise
      (fun x y => (x.1 : ℚ) / 1 < (y.1 : ℚ) / 1)
      ∧ ((supplementary_detection c4wEnv 1
        (precise_detection c4wEnv (1 / 2) 1 [5])).1.map (fun x => x.1)).Nodup)
    ∧ (((group_and_deduplicate (9 / 10) 1
        (precise_detection_with_hashing c4wEnv (1 / 2) 1 [5])
        ⟨⟨[], [], 0⟩, [], []⟩).final_slides).Pairwise
      (fun x y => x.2.2.timestamp < y.2.2.timestamp)
      ∧ (((group_and_deduplicate (9 / 10) 1
        (precise_detection_with_hashing c4wEnv (1 / 2) 1 [5])
        ⟨⟨[], [], 0⟩, [], []⟩).final_slides).map (fun x => x.1)).Nodup) := by
  have hstep : 1 ≤ stepLen 1 := by norm_num [stepLen, pyInt]
  exact ⟨hstep,
    claim_C5_emitted c4wEnv (1 / 2) (1 / 2) (9 / 10) 1 [5] [5] hstep⟩

end Video2Summary
